import Mathlib

/-!
# Xevan cascade (`SolarisWallet/xevan.c`)

A shallow embedding of `xevan_hash` and of the static context template
`base_contexts`.  Bytes are natural numbers, memory reached through a pointer
is a function from offsets to bytes, and the local scratch array
`uint32_t hash[32]` is a list of 128 bytes.

Every call of the sph engine interface made by the function is appended to a
log together with its arguments, so that statements about "the message a
stage absorbs" or "the order of the stages" are statements about the log.
-/

namespace Xevan

/-! ## Memory -/

/-- Memory as seen through a pointer: the byte stored at each offset. -/
abbrev Mem := Nat → Nat

/-- The `len` bytes read from a pointer, offsets `0 .. len-1`. -/
def readBytes (p : Mem) (len : Nat) : List Nat :=
  (List.range len).map p

/-- The effect of `memcpy(dst, src, src.length)` on the memory behind `dst`. -/
def memcpyTo (dst : Mem) (src : List Nat) : Mem :=
  fun i => src.getD i (dst i)

/-- The effect on a local byte array of writing `src` at its start. -/
def writeAt0 (buf src : List Nat) : List Nat :=
  src ++ buf.drop src.length

/-! ## Engines -/

/-- The fields of `Xhash_context_holder`, in declaration order. -/
inductive EngineId
  | blake1 | bmw1 | groestl1 | skein1 | jh1 | keccak1 | luffa1 | cubehash1
  | shavite1 | simd1 | echo1 | hamsi1 | fugue1 | shabal1 | whirlpool1
  | sha512 | haval1
  deriving DecidableEq, Repr, Fintype

/-- Digest width in bytes of the engine behind each field: 512-bit engines
write 64 bytes, `sph_haval256_5` writes 32. -/
def digestBytes : EngineId → Nat
  | .haval1 => 32
  | _ => 64

/-- Modelled from the spec: the sph engines (`sph_blake512`, ...,
`sph_haval256_5`) are only declared through the `sph/*.h` headers that
`xevan.c` includes; their bodies are not among the sources.  Following the
engine contract of the specification (section 4.1) and the interface
documentation kept in `Sha2.c`, an engine with digest width `outLen` has a
context type, an `init` acting on a context in place, an `update` absorbing a
byte string, and a `close` that returns the context left behind together with
the digest of exactly `outLen` bytes it writes to the start of the
destination. -/
structure Engine (outLen : Nat) where
  /-- The context structure, e.g. `sph_sha512_context`. -/
  Ctx : Type
  /-- Initialise a context in place: `sph_X_init(cc)`. -/
  init : Ctx → Ctx
  /-- Absorb bytes: `sph_X(cc, data, len)` with `data[0..len)` given as a list. -/
  update : Ctx → List Nat → Ctx
  /-- Terminate: `sph_X_close(cc, dst)`; the digest and the context afterwards. -/
  close : Ctx → Ctx × List Nat
  /-- The digest has the width of the engine. -/
  close_length : ∀ c, (close c).2.length = outLen

/-- One engine per field of the holder, each with the width of its field. -/
abbrev Engines := (e : EngineId) → Engine (digestBytes e)

/-- The structure `Xhash_context_holder`: one context per engine. -/
abbrev Xhash_context_holder (E : Engines) := (e : EngineId) → (E e).Ctx

/-! ## Call log -/

/-- A call of the engine interface, with its arguments.  For `close` the log
keeps the digest returned and the destination array before and after. -/
inductive Call
  | init (e : EngineId)
  | absorb (e : EngineId) (data : List Nat)
  | close (e : EngineId) (digest dstBefore dstAfter : List Nat)
  deriving DecidableEq, Repr

/-- The kind of a call, without its data. -/
inductive CallKind
  | init (e : EngineId)
  | absorb (e : EngineId)
  | close (e : EngineId)
  deriving DecidableEq, Repr

/-- Forget the data of a call. -/
def Call.kind : Call → CallKind
  | .init e => .init e
  | .absorb e _ => .absorb e
  | .close e _ _ _ => .close e

/-! ## State -/

/-- The static `base_contexts` together with the call log. -/
structure Globals (E : Engines) where
  base_contexts : Xhash_context_holder E
  log : List Call

/-- Everything `xevan_hash` reads or writes after its locals are set up:
the static template, the local `ctx`, the local array `hash`, the memory
behind the output pointer `state`, and the call log. -/
structure Machine (E : Engines) where
  base_contexts : Xhash_context_holder E
  ctx : Xhash_context_holder E
  hash : List Nat
  state : Mem
  log : List Call

variable {E : Engines}

/-- The statement `sph_X_init(&base_contexts.e)`. -/
def sph_init (E : Engines) (e : EngineId) (g : Globals E) : Globals E :=
  { base_contexts := Function.update g.base_contexts e ((E e).init (g.base_contexts e)),
    log := g.log ++ [Call.init e] }

/-- The statement `sph_X(&ctx.e, data, len)` for the bytes `data`. -/
def sph_absorb (E : Engines) (e : EngineId) (data : List Nat) (m : Machine E) : Machine E :=
  { m with
    ctx := Function.update m.ctx e ((E e).update (m.ctx e) data),
    log := m.log ++ [Call.absorb e data] }

/-- The statement `sph_X(&ctx.e, hash, len)`: absorb the first `len` bytes of
the scratch array. -/
def absorb_hash (E : Engines) (e : EngineId) (len : Nat) (m : Machine E) : Machine E :=
  sph_absorb E e (m.hash.take len) m

/-- The statement `sph_X_close(&ctx.e, hash)`: the digest lands at the start
of the scratch array. -/
def sph_close (E : Engines) (e : EngineId) (m : Machine E) : Machine E :=
  { m with
    ctx := Function.update m.ctx e ((E e).close (m.ctx e)).1,
    hash := writeAt0 m.hash ((E e).close (m.ctx e)).2,
    log := m.log ++
      [Call.close e ((E e).close (m.ctx e)).2 m.hash
        (writeAt0 m.hash ((E e).close (m.ctx e)).2)] }

/-- The statement `memset(&hash[8], 0, 128 - 32)`: `hash` has 4-byte
elements, so bytes 32 .. 127 are cleared. -/
def memset_hash8 (m : Machine E) : Machine E :=
  { m with hash := m.hash.take 32 ++ List.replicate (128 - 32) 0 ++ m.hash.drop 128 }

/-- The statement `memcpy(state, hash, 32)`. -/
def memcpy_state (m : Machine E) : Machine E :=
  { m with state := memcpyTo m.state (m.hash.take 32) }

/-! ## The program -/

/-- The function `init_xevanhash_contexts` (xevan.c lines 56-75). -/
def init_xevanhash_contexts (E : Engines) (g : Globals E) : Globals E :=
  g |> sph_init E .blake1
    |> sph_init E .bmw1
    |> sph_init E .groestl1
    |> sph_init E .skein1
    |> sph_init E .jh1
    |> sph_init E .keccak1
    |> sph_init E .luffa1
    |> sph_init E .cubehash1
    |> sph_init E .shavite1
    |> sph_init E .simd1
    |> sph_init E .echo1
    |> sph_init E .hamsi1
    |> sph_init E .fugue1
    |> sph_init E .shabal1
    |> sph_init E .whirlpool1
    |> sph_init E .sha512
    |> sph_init E .haval1

/-- Lines 78-85: run the initialisers on the static template, clear `hash`,
copy the template into the local `ctx`. -/
def xevan_setup (E : Engines) (base_contexts : Xhash_context_holder E) (state : Mem) :
    Machine E :=
  let g := init_xevanhash_contexts E { base_contexts := base_contexts, log := [] }
  { base_contexts := g.base_contexts
    ctx := g.base_contexts
    hash := List.replicate 128 0
    state := state
    log := g.log }

/-- Lines 86-90: the Blake stage of the first pass. -/
def xevan_blake_first (E : Engines) (input : Mem) (version : Int) (m : Machine E) :
    Machine E :=
  (if version = 4 then
    sph_absorb E .blake1 (readBytes input 112) m
  else
    sph_absorb E .blake1 (readBytes input 80) m)
    |> sph_close E .blake1

/-- Lines 92-138: the remaining stages of the first pass. -/
def xevan_pass1_rest (E : Engines) (m : Machine E) : Machine E :=
  m |> absorb_hash E .bmw1 128 |> sph_close E .bmw1
    |> absorb_hash E .groestl1 128 |> sph_close E .groestl1
    |> absorb_hash E .skein1 128 |> sph_close E .skein1
    |> absorb_hash E .jh1 128 |> sph_close E .jh1
    |> absorb_hash E .keccak1 128 |> sph_close E .keccak1
    |> absorb_hash E .luffa1 128 |> sph_close E .luffa1
    |> absorb_hash E .cubehash1 128 |> sph_close E .cubehash1
    |> absorb_hash E .shavite1 128 |> sph_close E .shavite1
    |> absorb_hash E .simd1 128 |> sph_close E .simd1
    |> absorb_hash E .echo1 128 |> sph_close E .echo1
    |> absorb_hash E .hamsi1 128 |> sph_close E .hamsi1
    |> absorb_hash E .fugue1 128 |> sph_close E .fugue1
    |> absorb_hash E .shabal1 128 |> sph_close E .shabal1
    |> absorb_hash E .whirlpool1 128 |> sph_close E .whirlpool1
    |> absorb_hash E .sha512 128 |> sph_close E .sha512
    |> absorb_hash E .haval1 128 |> sph_close E .haval1

/-- Lines 86-138: the first pass. -/
def xevan_pass1 (E : Engines) (input : Mem) (version : Int) (m : Machine E) : Machine E :=
  m |> xevan_blake_first E input version |> xevan_pass1_rest E

/-- Lines 141-190: the second pass, over the scratch array. -/
def xevan_pass2 (E : Engines) (m : Machine E) : Machine E :=
  m |> absorb_hash E .blake1 128 |> sph_close E .blake1
    |> absorb_hash E .bmw1 128 |> sph_close E .bmw1
    |> absorb_hash E .groestl1 128 |> sph_close E .groestl1
    |> absorb_hash E .skein1 128 |> sph_close E .skein1
    |> absorb_hash E .jh1 128 |> sph_close E .jh1
    |> absorb_hash E .keccak1 128 |> sph_close E .keccak1
    |> absorb_hash E .luffa1 128 |> sph_close E .luffa1
    |> absorb_hash E .cubehash1 128 |> sph_close E .cubehash1
    |> absorb_hash E .shavite1 128 |> sph_close E .shavite1
    |> absorb_hash E .simd1 128 |> sph_close E .simd1
    |> absorb_hash E .echo1 128 |> sph_close E .echo1
    |> absorb_hash E .hamsi1 128 |> sph_close E .hamsi1
    |> absorb_hash E .fugue1 128 |> sph_close E .fugue1
    |> absorb_hash E .shabal1 128 |> sph_close E .shabal1
    |> absorb_hash E .whirlpool1 128 |> sph_close E .whirlpool1
    |> absorb_hash E .sha512 128 |> sph_close E .sha512
    |> absorb_hash E .haval1 128 |> sph_close E .haval1

/-- The function `xevan_hash(input, state, version)` (xevan.c lines 76-194),
started with the static template holding `base_contexts`.  The result holds
the template and the output memory after the call, the final contents of the
locals, and the log of engine calls. -/
def xevan_hash (E : Engines) (base_contexts : Xhash_context_holder E)
    (input : Mem) (state : Mem) (version : Int) : Machine E :=
  xevan_setup E base_contexts state
    |> xevan_pass1 E input version
    |> memset_hash8
    |> xevan_pass2 E
    |> memcpy_state

/-- The 32 bytes the caller finds at the output pointer after the call. -/
def xevan_digest (E : Engines) (base_contexts : Xhash_context_holder E)
    (input : Mem) (state : Mem) (version : Int) : List Nat :=
  readBytes (xevan_hash E base_contexts input state version).state 32

/-! ## Stages -/

/-- One stage over the scratch array, as written twice per engine in the
source: `sph_X(&ctx.e, hash, 128); sph_X_close(&ctx.e, hash);`. -/
def stage (E : Engines) (e : EngineId) (m : Machine E) : Machine E :=
  m |> absorb_hash E e 128 |> sph_close E e

/-- The digest a stage writes when started on `m`. -/
def stageDigest (E : Engines) (e : EngineId) (m : Machine E) : List Nat :=
  ((E e).close ((E e).update (m.ctx e) (m.hash.take 128))).2

/-- The context a stage leaves behind when started on `m`. -/
def stageCtx (E : Engines) (e : EngineId) (m : Machine E) : (E e).Ctx :=
  ((E e).close ((E e).update (m.ctx e) (m.hash.take 128))).1

/-- Stages run one after the other. -/
def runStages (E : Engines) (es : List EngineId) (m : Machine E) : Machine E :=
  es.foldl (fun m e => stage E e m) m

/-- The engines after Blake: BMW, Groestl, Skein, JH, Keccak, Luffa, CubeHash,
Shavite, SIMD, Echo, Hamsi, Fugue, Shabal, Whirlpool, SHA-512, Haval. -/
def restOrder : List EngineId :=
  [.bmw1, .groestl1, .skein1, .jh1, .keccak1, .luffa1, .cubehash1, .shavite1,
   .simd1, .echo1, .hamsi1, .fugue1, .shabal1, .whirlpool1, .sha512, .haval1]

/-- The order Blake, BMW, ..., SHA-512, Haval. -/
def passOrder : List EngineId := .blake1 :: restOrder

/-- The calls of one pass in that order: absorb, then close, engine by engine. -/
def passKinds : List CallKind :=
  passOrder.flatMap (fun e => [CallKind.absorb e, CallKind.close e])

/-- The initialiser calls on the template, in the order of the source. -/
def initCalls : List Call := passOrder.map Call.init

/-- Whether a call is a `close`. -/
def Call.isClose : Call → Bool
  | .close _ _ _ _ => true
  | _ => false

/-- Whether a call is an absorb. -/
def Call.isAbsorb : Call → Bool
  | .absorb _ _ => true
  | _ => false

/-- The frame of a call on the 128-byte scratch array: an absorb takes 128
bytes; a close of an engine of width `N` receives and leaves a 128-byte array,
puts its `N`-byte digest in front and leaves bytes `N .. 127` as they were. -/
def Call.framed : Call → Prop
  | .init _ => False
  | .absorb _ data => data.length = 128
  | .close e digest dstBefore dstAfter =>
      dstBefore.length = 128 ∧ dstAfter.length = 128 ∧ digest.length = digestBytes e ∧
      dstAfter.take (digestBytes e) = digest ∧
      dstAfter.drop (digestBytes e) = dstBefore.drop (digestBytes e)

/-- Whether a kind of call is a `close`. -/
def CallKind.isClose : CallKind → Bool
  | .close _ => true
  | _ => false

/-- Whether a kind of call is an absorb. -/
def CallKind.isAbsorb : CallKind → Bool
  | .absorb _ => true
  | _ => false

/-- A list of calls made of stages: an absorb followed by the close of the same
engine, the bytes absorbed being the whole destination array the close
receives. -/
def StagePairs : List Call → Prop
  | Call.absorb e data :: Call.close e' _ dstBefore _ :: rest =>
      e = e' ∧ data = dstBefore ∧ StagePairs rest
  | [] => True
  | _ => False

/-! ## Behavioural equivalence of contexts -/

/-- A relation between contexts of one engine that the interface cannot tell
apart: absorbing the same bytes and closing keep contexts related, and related
contexts close to the same digest. -/
structure Engine.Bisim {n : Nat} (X : Engine n) (R : X.Ctx → X.Ctx → Prop) : Prop where
  update : ∀ c c' data, R c c' → R (X.update c data) (X.update c' data)
  close_ctx : ∀ c c', R c c' → R (X.close c).1 (X.close c').1
  close_digest : ∀ c c', R c c' → (X.close c).2 = (X.close c').2

/-- The contract "init produces a fresh state": whatever the context held
before, the initialised context behaves the same. -/
def Engine.InitFresh {n : Nat} (X : Engine n) : Prop :=
  ∃ R : X.Ctx → X.Ctx → Prop, X.Bisim R ∧ ∀ c c', R (X.init c) (X.init c')

/-- The contract "close returns the context to the initial state `c0`": the
context left by any close behaves like `c0`.  Fields the interface never reads
before overwriting them (such as a block buffer) may differ. -/
def Engine.ClosesTo {n : Nat} (X : Engine n) (c0 : X.Ctx) : Prop :=
  ∃ R : X.Ctx → X.Ctx → Prop, X.Bisim R ∧ R c0 c0 ∧ ∀ c, R (X.close c).1 c0

/-- Two machines with the same scratch array whose contexts are related engine
by engine. -/
def Alike (R : (e : EngineId) → (E e).Ctx → (E e).Ctx → Prop) (m m' : Machine E) : Prop :=
  (∀ e, R e (m.ctx e) (m'.ctx e)) ∧ m.hash = m'.hash

/-- Every context of the machine behaves like the fresh context of its engine. -/
def LikeFresh (R : (e : EngineId) → (E e).Ctx → (E e).Ctx → Prop)
    (fresh : Xhash_context_holder E) (m : Machine E) : Prop :=
  ∀ e, R e (m.ctx e) (fresh e)

/-! ## The cascade as the claims describe it -/

/-- The digest of `msg` computed by engine `e` from the context `fresh e`. -/
def freshDigest (E : Engines) (fresh : Xhash_context_holder E) (e : EngineId)
    (msg : List Nat) : List Nat :=
  ((E e).close ((E e).update (fresh e) msg)).2

/-- One full Blake-to-Haval pass as the specification words it, every engine
starting from its fresh context: Blake hashes `msg` into a zero-initialised
128-byte buffer, then each later engine hashes the whole buffer and puts its
digest at the start of the buffer.  The result is the final buffer. -/
def Chain (E : Engines) (fresh : Xhash_context_holder E) (msg : List Nat) : List Nat :=
  restOrder.foldl (fun buf e => writeAt0 buf (freshDigest E fresh e buf))
    (writeAt0 (List.replicate 128 0) (freshDigest E fresh .blake1 msg))

/-- The template after `init_xevanhash_contexts`, field by field. -/
def freshContexts (E : Engines) (base_contexts : Xhash_context_holder E) :
    Xhash_context_holder E :=
  fun e => (E e).init (base_contexts e)

/-! ## A concrete instance -/

/-- Context of a small checksum engine used to run the cascade on concrete
inputs: a running checksum `acc`, and a field `last` that `init` leaves alone,
like the block buffer of an sph context. -/
structure ToyCtx where
  acc : Nat
  last : Nat
  deriving DecidableEq, Repr

/-- A checksum engine of any width. -/
def toyEngine (n : Nat) : Engine n where
  Ctx := ToyCtx
  init c := { c with acc := 7 }
  update c data := { c with acc := data.foldl (fun a b => (a * 1664525 + b + 1013904223) % 4294967296) c.acc }
  close c := ({ acc := 7, last := c.acc },
    (List.range n).map (fun i => (c.acc + 1) * (2 * i + 1) * 40503 / 65536 % 256))
  close_length := by intro c; simp

/-- The checksum engine behind every field of the holder. -/
def toyEngines : Engines := fun e => toyEngine (digestBytes e)

/-- A template that was never initialised (static storage is zero). -/
def toyBase : Xhash_context_holder toyEngines := fun _ => { acc := 0, last := 0 }

/-- An input memory for concrete runs. -/
def toyInput : Mem := fun i => (7 * i + 3) % 256

/-- An output memory for concrete runs, all zero before the call. -/
def toyState : Mem := fun _ => 0

/-- The memory behind a pointer to a buffer `buf` of the caller: the buffer
itself, then whatever follows it in memory. -/
def bufMem (buf : List Nat) (after : Mem) : Mem :=
  fun i => if i < buf.length then buf.getD i 0 else after (i - buf.length)

/-! # SHA-384 / SHA-512 (`SolarisWallet/Sha2.c`)

Words of type `sph_u64` are natural numbers below `2 ^ 64`; every operation
that can leave this range is followed by the reduction the source applies. -/

/-! ## Word operations -/

/-- Modelled from the spec: the macro `SPH_T64` comes from `sph_types.h`, which
is not among the sources; it truncates a value to 64 bits. -/
def SPH_T64 (x : Nat) : Nat := x % 2 ^ 64

/-- Modelled from the spec: the macro `SPH_ROTL64` of `sph_types.h` (not among
the sources), the left rotation of a 64-bit word:
`SPH_T64(((x) << (n)) | ((x) >> (64 - (n))))`. -/
def SPH_ROTL64 (x n : Nat) : Nat := SPH_T64 ((x <<< n) ||| (x >>> (64 - n)))

/-- Modelled from the spec: the macro `SPH_ROTR64` of `sph_types.h` (not among
the sources), the right rotation of a 64-bit word: `SPH_ROTL64(x, (64 - (n)))`. -/
def SPH_ROTR64 (x n : Nat) : Nat := SPH_ROTL64 x (64 - n)

/-- The macro `ROTR64`, defined as `SPH_ROTR64` (Sha2.c line 332). -/
abbrev ROTR64 (x n : Nat) : Nat := SPH_ROTR64 x n

/-- The macro `CH(X, Y, Z)` (Sha2.c line 329). -/
def CH (X Y Z : Nat) : Nat := ((Y ^^^ Z) &&& X) ^^^ Z

/-- The macro `MAJ(X, Y, Z)` (Sha2.c line 330). -/
def MAJ (X Y Z : Nat) : Nat := (X &&& Y) ||| ((X ||| Y) &&& Z)

/-- The macro `BSG5_0(x)` (Sha2.c line 334). -/
def BSG5_0 (x : Nat) : Nat := ROTR64 x 28 ^^^ ROTR64 x 34 ^^^ ROTR64 x 39

/-- The macro `BSG5_1(x)` (Sha2.c line 335). -/
def BSG5_1 (x : Nat) : Nat := ROTR64 x 14 ^^^ ROTR64 x 18 ^^^ ROTR64 x 41

/-- The macro `SSG5_0(x)` (Sha2.c line 336). -/
def SSG5_0 (x : Nat) : Nat := ROTR64 x 1 ^^^ ROTR64 x 8 ^^^ SPH_T64 (x >>> 7)

/-- The macro `SSG5_1(x)` (Sha2.c line 337). -/
def SSG5_1 (x : Nat) : Nat := ROTR64 x 19 ^^^ ROTR64 x 61 ^^^ SPH_T64 (x >>> 6)

/-! ## Constants -/

/-- The table `K512` (Sha2.c lines 339-380). -/
def K512 : List Nat := [
  0x428A2F98D728AE22, 0x7137449123EF65CD,
  0xB5C0FBCFEC4D3B2F, 0xE9B5DBA58189DBBC,
  0x3956C25BF348B538, 0x59F111F1B605D019,
  0x923F82A4AF194F9B, 0xAB1C5ED5DA6D8118,
  0xD807AA98A3030242, 0x12835B0145706FBE,
  0x243185BE4EE4B28C, 0x550C7DC3D5FFB4E2,
  0x72BE5D74F27B896F, 0x80DEB1FE3B1696B1,
  0x9BDC06A725C71235, 0xC19BF174CF692694,
  0xE49B69C19EF14AD2, 0xEFBE4786384F25E3,
  0x0FC19DC68B8CD5B5, 0x240CA1CC77AC9C65,
  0x2DE92C6F592B0275, 0x4A7484AA6EA6E483,
  0x5CB0A9DCBD41FBD4, 0x76F988DA831153B5,
  0x983E5152EE66DFAB, 0xA831C66D2DB43210,
  0xB00327C898FB213F, 0xBF597FC7BEEF0EE4,
  0xC6E00BF33DA88FC2, 0xD5A79147930AA725,
  0x06CA6351E003826F, 0x142929670A0E6E70,
  0x27B70A8546D22FFC, 0x2E1B21385C26C926,
  0x4D2C6DFC5AC42AED, 0x53380D139D95B3DF,
  0x650A73548BAF63DE, 0x766A0ABB3C77B2A8,
  0x81C2C92E47EDAEE6, 0x92722C851482353B,
  0xA2BFE8A14CF10364, 0xA81A664BBC423001,
  0xC24B8B70D0F89791, 0xC76C51A30654BE30,
  0xD192E819D6EF5218, 0xD69906245565A910,
  0xF40E35855771202A, 0x106AA07032BBD1B8,
  0x19A4C116B8D2D0C8, 0x1E376C085141AB53,
  0x2748774CDF8EEB99, 0x34B0BCB5E19B48A8,
  0x391C0CB3C5C95A63, 0x4ED8AA4AE3418ACB,
  0x5B9CCA4F7763E373, 0x682E6FF3D6B2B8A3,
  0x748F82EE5DEFB2FC, 0x78A5636F43172F60,
  0x84C87814A1F0AB72, 0x8CC702081A6439EC,
  0x90BEFFFA23631E28, 0xA4506CEBDE82BDE9,
  0xBEF9A3F7B2C67915, 0xC67178F2E372532B,
  0xCA273ECEEA26619C, 0xD186B8C721C0C207,
  0xEADA7DD6CDE0EB1E, 0xF57D4F7FEE6ED178,
  0x06F067AA72176FBA, 0x0A637DC5A2C898A6,
  0x113F9804BEF90DAE, 0x1B710B35131C471B,
  0x28DB77F523047D84, 0x32CAAB7B40C72493,
  0x3C9EBE0A15C9BEBC, 0x431D67C49C100D4C,
  0x4CC5D4BECB3E42B6, 0x597F299CFC657E2A,
  0x5FCB6FAB3AD6FAEC, 0x6C44198C4A475817]

/-- The table `H384` (Sha2.c lines 382-387). -/
def H384 : List Nat := [
  0xCBBB9D5DC1059ED8, 0x629A292A367CD507,
  0x9159015A3070DD17, 0x152FECD8F70E5939,
  0x67332667FFC00B31, 0x8EB44A8768581511,
  0xDB0C2E0D64F98FA7, 0x47B5481DBEFA4FA4]

/-- The table `H512` (Sha2.c lines 389-394). -/
def H512 : List Nat := [
  0x6A09E667F3BCC908, 0xBB67AE8584CAA73B,
  0x3C6EF372FE94F82B, 0xA54FF53A5F1D36F1,
  0x510E527FADE682D1, 0x9B05688C2B3E6C1F,
  0x1F83D9ABFB41BD6B, 0x5BE0CD19137E2179]

/-! ## The compression function -/

/-- The eight local variables `A .. H` of `SHA3_ROUND_BODY`. -/
structure Regs where
  A : Nat
  B : Nat
  C : Nat
  D : Nat
  E : Nat
  F : Nat
  G : Nat
  H : Nat
  deriving DecidableEq, Repr

/-- The macro `SHA3_STEP(A, B, C, D, E, F, G, H, i)` (Sha2.c lines 411-417).
It assigns the variables passed in fourth and in eighth position; the result
is the pair of their new values. -/
def SHA3_STEP (W : List Nat) (A B C D E F G H i : Nat) : Nat × Nat :=
  let T1 := SPH_T64 (H + BSG5_1 E + CH E F G + K512.getD i 0 + W.getD i 0)
  let T2 := SPH_T64 (BSG5_0 A + MAJ A B C)
  (SPH_T64 (D + T1), SPH_T64 (T1 + T2))

/-- The array `W` after the two initial loops of `SHA3_ROUND_BODY` (Sha2.c
lines 424-428): `W[i] = in(i)` for `i < 16`, then the entries 16 .. 79 in
increasing order, each from four earlier entries. -/
def SHA3_W (inp : Nat → Nat) : List Nat :=
  (List.range' 16 64).foldl
    (fun W i => W ++ [SPH_T64 (SSG5_1 (W.getD (i - 2) 0) + W.getD (i - 7) 0
      + SSG5_0 (W.getD (i - 15) 0) + W.getD (i - 16) 0)])
    ((List.range 16).map inp)

/-- The body of the loop `for (i = 0; i < 80; i += 8)` (Sha2.c lines 438-445):
eight steps, the roles of the variables shifting by one at each step. -/
def SHA3_loop_body (W : List Nat) (s : Regs) (i : Nat) : Regs :=
  let s := { s with D := (SHA3_STEP W s.A s.B s.C s.D s.E s.F s.G s.H (i + 0)).1,
                    H := (SHA3_STEP W s.A s.B s.C s.D s.E s.F s.G s.H (i + 0)).2 }
  let s := { s with C := (SHA3_STEP W s.H s.A s.B s.C s.D s.E s.F s.G (i + 1)).1,
                    G := (SHA3_STEP W s.H s.A s.B s.C s.D s.E s.F s.G (i + 1)).2 }
  let s := { s with B := (SHA3_STEP W s.G s.H s.A s.B s.C s.D s.E s.F (i + 2)).1,
                    F := (SHA3_STEP W s.G s.H s.A s.B s.C s.D s.E s.F (i + 2)).2 }
  let s := { s with A := (SHA3_STEP W s.F s.G s.H s.A s.B s.C s.D s.E (i + 3)).1,
                    E := (SHA3_STEP W s.F s.G s.H s.A s.B s.C s.D s.E (i + 3)).2 }
  let s := { s with H := (SHA3_STEP W s.E s.F s.G s.H s.A s.B s.C s.D (i + 4)).1,
                    D := (SHA3_STEP W s.E s.F s.G s.H s.A s.B s.C s.D (i + 4)).2 }
  let s := { s with G := (SHA3_STEP W s.D s.E s.F s.G s.H s.A s.B s.C (i + 5)).1,
                    C := (SHA3_STEP W s.D s.E s.F s.G s.H s.A s.B s.C (i + 5)).2 }
  let s := { s with F := (SHA3_STEP W s.C s.D s.E s.F s.G s.H s.A s.B (i + 6)).1,
                    B := (SHA3_STEP W s.C s.D s.E s.F s.G s.H s.A s.B (i + 6)).2 }
  let s := { s with E := (SHA3_STEP W s.B s.C s.D s.E s.F s.G s.H s.A (i + 7)).1,
                    A := (SHA3_STEP W s.B s.C s.D s.E s.F s.G s.H s.A (i + 7)).2 }
  s

/-- The macro `SHA3_ROUND_BODY(in, r)` (Sha2.c lines 419-455): `inp x` is the
expression `in(x)`, `r` the array of eight words, updated in place. -/
def SHA3_ROUND_BODY (inp : Nat → Nat) (r : List Nat) : List Nat :=
  let W := SHA3_W inp
  let s0 : Regs :=
    { A := r.getD 0 0, B := r.getD 1 0, C := r.getD 2 0, D := r.getD 3 0,
      E := r.getD 4 0, F := r.getD 5 0, G := r.getD 6 0, H := r.getD 7 0 }
  let s := (List.range' 0 10 8).foldl (fun s i => SHA3_loop_body W s i) s0
  let r := r.set 0 (SPH_T64 (r.getD 0 0 + s.A))
  let r := r.set 1 (SPH_T64 (r.getD 1 0 + s.B))
  let r := r.set 2 (SPH_T64 (r.getD 2 0 + s.C))
  let r := r.set 3 (SPH_T64 (r.getD 3 0 + s.D))
  let r := r.set 4 (SPH_T64 (r.getD 4 0 + s.E))
  let r := r.set 5 (SPH_T64 (r.getD 5 0 + s.F))
  let r := r.set 6 (SPH_T64 (r.getD 6 0 + s.G))
  let r := r.set 7 (SPH_T64 (r.getD 7 0 + s.H))
  r

/-- Modelled from the spec: `sph_dec64be_aligned` comes from `sph_types.h`,
which is not among the sources; it decodes the eight bytes at `src + off` as a
big-endian 64-bit word. -/
def sph_dec64be_aligned (src : Mem) (off : Nat) : Nat :=
  src off * 2 ^ 56 + src (off + 1) * 2 ^ 48 + src (off + 2) * 2 ^ 40
    + src (off + 3) * 2 ^ 32 + src (off + 4) * 2 ^ 24 + src (off + 5) * 2 ^ 16
    + src (off + 6) * 2 ^ 8 + src (off + 7)

/-- The function `sha3_round(data, r)` (Sha2.c lines 460-466), with
`SHA3_IN(x) = sph_dec64be_aligned(data + (8 * (x)))`. -/
def sha3_round (data : Mem) (r : List Nat) : List Nat :=
  SHA3_ROUND_BODY (fun x => sph_dec64be_aligned data (8 * x)) r

/-- The function `sph_sha384_comp(msg, val)` (Sha2.c lines 528-534), with
`SHA3_IN(x) = msg[x]`; the result is `val` after the call. -/
def sph_sha384_comp (msg : Nat → Nat) (val : List Nat) : List Nat :=
  SHA3_ROUND_BODY (fun x => msg x) val

/-- The macro `sph_sha512_comp`, defined as `sph_sha384_comp` (Sha2.c line 321). -/
abbrev sph_sha512_comp (msg : Nat → Nat) (val : List Nat) : List Nat :=
  sph_sha384_comp msg val

/-! ## Contexts, initialisation and termination -/

/-- The structure `sph_sha384_context` (Sha2.c lines 186-192), also used as
`sph_sha512_context`.  `buf` is the memory of the 128-byte array `buf`
(offsets 0 .. 127 are the array; nothing reads or writes beyond them), `val`
the array of eight words, `count` the 64-bit counter. -/
structure sph_sha384_context where
  buf : Mem
  val : List Nat
  count : Nat

/-- The function `sph_sha384_init` (Sha2.c lines 469-477). -/
def sph_sha384_init (sc : sph_sha384_context) : sph_sha384_context :=
  { sc with val := H384, count := 0 }

/-- The function `sph_sha512_init` (Sha2.c lines 480-488). -/
def sph_sha512_init (sc : sph_sha384_context) : sph_sha384_context :=
  { sc with val := H512, count := 0 }

/-- Modelled from the spec: `sph_enc64be` comes from `sph_types.h`, which is
not among the sources; it encodes a 64-bit word as eight bytes, most
significant byte first. -/
def sph_enc64be (w : Nat) : List Nat :=
  [(w >>> 56) % 256, (w >>> 48) % 256, (w >>> 40) % 256, (w >>> 32) % 256,
   (w >>> 24) % 256, (w >>> 16) % 256, (w >>> 8) % 256, w % 256]

/-- The effect of writing the bytes `src` at offset `off` of a memory. -/
def writeBytes (m : Mem) (off : Nat) (src : List Nat) : Mem :=
  fun i => if off ≤ i ∧ i < off + src.length then src.getD (i - off) 0 else m i

/-- The effect of `memset(m + off, 0, len)`. -/
def zeroBytes (m : Mem) (off len : Nat) : Mem :=
  fun i => if off ≤ i ∧ i < off + len then 0 else m i

/-- Modelled from the spec: the absorb function is generated by
`sph_md_helper.c`, which `Sha2.c` includes and which is not among the sources.
Following the engine contract of the specification (section 4.1), a byte is
appended to the block buffer at the position given by the byte counter, and a
buffer that has become full (128 bytes) is processed by the round function.
This is the effect of one byte. -/
def sha384_absorb_byte (sc : sph_sha384_context) (b : Nat) : sph_sha384_context :=
  { buf := Function.update sc.buf (sc.count % 128) b
    val :=
      if sc.count % 128 + 1 = 128 then
        sha3_round (Function.update sc.buf (sc.count % 128) b) sc.val
      else sc.val
    count := SPH_T64 (sc.count + 1) }

/-- Modelled from the spec: `sph_sha384(cc, data, len)`, generated by
`sph_md_helper.c` (not among the sources) and also reachable as `sph_sha512`:
the bytes of `data` are absorbed one after the other. -/
def sph_sha384 (sc : sph_sha384_context) (data : List Nat) : sph_sha384_context :=
  data.foldl sha384_absorb_byte sc

/-- The macro `sph_sha512`, defined as `sph_sha384` (Sha2.c line 280). -/
abbrev sph_sha512 (sc : sph_sha384_context) (data : List Nat) : sph_sha384_context :=
  sph_sha384 sc data

/-- Modelled from the spec: `sha384_addbits_and_close(cc, ub, n, dst, rnum)`,
generated by `sph_md_helper.c` (not among the sources).  Following the
published padding rule the specification refers to: the `n` extra bits of `ub`
and the terminator bit are stored after the buffered bytes, the block is
filled with zeros up to offset 112 (a block already past that offset is
completed with zeros and processed first), the bit length is stored in the
last sixteen bytes, most significant byte first, the block is processed, and
the first `rnum` words of `val` are written to `dst`, most significant byte
first.  The result is the context and the destination memory afterwards. -/
def sha384_addbits_and_close (sc : sph_sha384_context) (ub n : Nat) (dst : Mem)
    (rnum : Nat) : sph_sha384_context × Mem :=
  let current := sc.count % 128
  let z := 0x80 >>> n
  let buf := Function.update sc.buf current (((ub &&& (2 ^ 32 - z)) ||| z) &&& 0xFF)
  let current := current + 1
  let padded : Mem × List Nat :=
    if current > 112 then
      (zeroBytes (zeroBytes buf current (128 - current)) 0 112,
        sha3_round (zeroBytes buf current (128 - current)) sc.val)
    else
      (zeroBytes buf current (112 - current), sc.val)
  let buf := writeBytes padded.1 112 (sph_enc64be (sc.count >>> 61))
  let buf := writeBytes buf 120 (sph_enc64be (SPH_T64 (sc.count <<< 3) + n))
  let val := sha3_round buf padded.2
  ({ buf := buf, val := val, count := sc.count },
    writeBytes dst 0 ((List.range rnum).flatMap (fun u => sph_enc64be (val.getD u 0))))

/-- Modelled from the spec: `sha384_close(cc, dst, rnum)`, generated by
`sph_md_helper.c` (not among the sources): termination without extra bits. -/
def sha384_close (sc : sph_sha384_context) (dst : Mem) (rnum : Nat) :
    sph_sha384_context × Mem :=
  sha384_addbits_and_close sc 0 0 dst rnum

/-- The function `sph_sha384_close` (Sha2.c lines 496-501). -/
def sph_sha384_close (sc : sph_sha384_context) (dst : Mem) : sph_sha384_context × Mem :=
  (sph_sha384_init (sha384_close sc dst 6).1, (sha384_close sc dst 6).2)

/-- The function `sph_sha384_addbits_and_close` (Sha2.c lines 504-509). -/
def sph_sha384_addbits_and_close (sc : sph_sha384_context) (ub n : Nat) (dst : Mem) :
    sph_sha384_context × Mem :=
  (sph_sha384_init (sha384_addbits_and_close sc ub n dst 6).1,
    (sha384_addbits_and_close sc ub n dst 6).2)

/-- The function `sph_sha512_close` (Sha2.c lines 512-517). -/
def sph_sha512_close (sc : sph_sha384_context) (dst : Mem) : sph_sha384_context × Mem :=
  (sph_sha512_init (sha384_close sc dst 8).1, (sha384_close sc dst 8).2)

/-- The function `sph_sha512_addbits_and_close` (Sha2.c lines 520-525). -/
def sph_sha512_addbits_and_close (sc : sph_sha384_context) (ub n : Nat) (dst : Mem) :
    sph_sha384_context × Mem :=
  (sph_sha512_init (sha384_addbits_and_close sc ub n dst 8).1,
    (sha384_addbits_and_close sc ub n dst 8).2)

/-- A context whose storage is all zero, as a static or cleared object is. -/
def zeroContext : sph_sha384_context :=
  { buf := fun _ => 0, val := List.replicate 8 0, count := 0 }

/-! ## The compression function of the published specification

The SHA-512 compression function as FIPS 180-4 words it, on 64-bit words:
the message schedule by its recurrence, one step per round with the working
variables `a .. h` shifting by one place, and the final addition. -/

/-- The right rotation `ROTR^n(x) = (x >> n) or (x << 64 - n)` of a 64-bit word. -/
def rotr64 (n x : Nat) : Nat := ((x >>> n) ||| (x <<< (64 - n))) % 2 ^ 64

/-- The right shift `SHR^n(x) = x >> n`. -/
def shr64 (n x : Nat) : Nat := x >>> n

/-- The function `sigma0` of the message schedule. -/
def smallSigma0 (x : Nat) : Nat := rotr64 1 x ^^^ rotr64 8 x ^^^ shr64 7 x

/-- The function `sigma1` of the message schedule. -/
def smallSigma1 (x : Nat) : Nat := rotr64 19 x ^^^ rotr64 61 x ^^^ shr64 6 x

/-- The function `Sigma0` of the round. -/
def bigSigma0 (x : Nat) : Nat := rotr64 28 x ^^^ rotr64 34 x ^^^ rotr64 39 x

/-- The function `Sigma1` of the round. -/
def bigSigma1 (x : Nat) : Nat := rotr64 14 x ^^^ rotr64 18 x ^^^ rotr64 41 x

/-- The textbook `Ch(x, y, z) = (x and y) xor ((not x) and z)` on 64-bit words. -/
def fipsCh (x y z : Nat) : Nat := (x &&& y) ^^^ ((x ^^^ (2 ^ 64 - 1)) &&& z)

/-- The textbook `Maj(x, y, z) = (x and y) xor (x and z) xor (y and z)`. -/
def fipsMaj (x y z : Nat) : Nat := (x &&& y) ^^^ (x &&& z) ^^^ (y &&& z)

/-- The message schedule: `W[t] = msg[t]` for `t < 16`, and
`W[t] = sigma1(W[t-2]) + W[t-7] + sigma0(W[t-15]) + W[t-16]` modulo `2 ^ 64`
from there on. -/
def fipsW (msg : Nat → Nat) (t : Nat) : Nat :=
  if t < 16 then msg t
  else
    (smallSigma1 (fipsW msg (t - 2)) + fipsW msg (t - 7)
      + smallSigma0 (fipsW msg (t - 15)) + fipsW msg (t - 16)) % 2 ^ 64
termination_by t
decreasing_by all_goals omega

/-- The first temporary of round `t`:
`T1 = h + Sigma1(e) + Ch(e, f, g) + K[t] + W[t]` modulo `2 ^ 64`. -/
def fipsT1 (W : Nat → Nat) (s : Regs) (t : Nat) : Nat :=
  (s.H + bigSigma1 s.E + fipsCh s.E s.F s.G + K512.getD t 0 + W t) % 2 ^ 64

/-- The second temporary of a round: `T2 = Sigma0(a) + Maj(a, b, c)` modulo
`2 ^ 64`. -/
def fipsT2 (s : Regs) : Nat :=
  (bigSigma0 s.A + fipsMaj s.A s.B s.C) % 2 ^ 64

/-- The textbook step of round `t` on the working variables, the fields
`A .. H` holding `a .. h`:
`(a, ..., h) := (T1 + T2, a, b, c, d + T1, e, f, g)`. -/
def fipsStep (W : Nat → Nat) (s : Regs) (t : Nat) : Regs :=
  { A := (fipsT1 W s t + fipsT2 s) % 2 ^ 64
    B := s.A
    C := s.B
    D := s.C
    E := (s.D + fipsT1 W s t) % 2 ^ 64
    F := s.E
    G := s.F
    H := s.G }

/-- The compression function of FIPS 180-4 on the block `msg` and the chaining
value `val`: 80 rounds from the working variables `val[0 .. 7]`, then the
word-wise addition of the working variables to `val` modulo `2 ^ 64`. -/
def fips_compress (msg : Nat → Nat) (val : List Nat) : List Nat :=
  let s0 : Regs :=
    { A := val.getD 0 0, B := val.getD 1 0, C := val.getD 2 0, D := val.getD 3 0,
      E := val.getD 4 0, F := val.getD 5 0, G := val.getD 6 0, H := val.getD 7 0 }
  let s := (List.range 80).foldl (fun s t => fipsStep (fipsW msg) s t) s0
  [(val.getD 0 0 + s.A) % 2 ^ 64, (val.getD 1 0 + s.B) % 2 ^ 64,
   (val.getD 2 0 + s.C) % 2 ^ 64, (val.getD 3 0 + s.D) % 2 ^ 64,
   (val.getD 4 0 + s.E) % 2 ^ 64, (val.getD 5 0 + s.F) % 2 ^ 64,
   (val.getD 6 0 + s.G) % 2 ^ 64, (val.getD 7 0 + s.H) % 2 ^ 64]

/-- All eight variables are 64-bit words. -/
def Regs.Bounded (s : Regs) : Prop :=
  s.A < 2 ^ 64 ∧ s.B < 2 ^ 64 ∧ s.C < 2 ^ 64 ∧ s.D < 2 ^ 64 ∧
  s.E < 2 ^ 64 ∧ s.F < 2 ^ 64 ∧ s.G < 2 ^ 64 ∧ s.H < 2 ^ 64

/-- The padded block of the empty message, as sixteen words. -/
def emptyBlock : Nat → Nat := fun x => if x = 0 then 0x8000000000000000 else 0

/-! ## Primes by trial division -/

/-- Primality by trial division. -/
def primeB (n : Nat) : Bool :=
  decide (2 ≤ n) && (List.range n).all (fun d => decide (d < 2) || decide (n % d ≠ 0))

/-- The primes below 410 in increasing order; there are 80 of them. -/
def primesBelow410 : List Nat := (List.range 410).filter primeB

/-! ## Stages that follow one another -/

/-- What a stage is handed by the stage before it: an absorb that comes right
after the close of an engine of width `N` receives that engine's digest
followed by `128 - N` zero bytes. -/
def Follows : Call → Call → Prop
  | Call.close e digest _ _, Call.absorb _ data =>
      data = digest ++ List.replicate (128 - digestBytes e) 0
  | _, _ => True

/-- The calls that `runStages` appends to the log. -/
def stageCalls (E : Engines) : List EngineId → Machine E → List Call
  | [], _ => []
  | e :: es, m =>
      Call.absorb e (m.hash.take 128) ::
      Call.close e (stageDigest E e m) m.hash (writeAt0 m.hash (stageDigest E e m)) ::
      stageCalls E es (stage E e m)

/-- A 128-byte array whose upper half is zero. -/
def ZeroUpper (buf : List Nat) : Prop :=
  buf.length = 128 ∧ buf.drop 64 = List.replicate 64 0

/-- Two contexts the absorb and close functions cannot tell apart: same `val`,
same `count`, and the same bytes in the part of `buf` that is in use, the
first `count % 128` bytes. -/
def BufAgree (c c' : sph_sha384_context) : Prop :=
  c.val = c'.val ∧ c.count = c'.count ∧ ∀ i, i < c.count % 128 → c.buf i = c'.buf i

/-- The SHA-512 functions of `Sha2.c` as an engine of width 64: the digest is
the 64 bytes that `sph_sha512_close` writes to its destination. -/
def sha512Engine : Engine 64 where
  Ctx := sph_sha384_context
  init := sph_sha512_init
  update := sph_sha512
  close c := ((sph_sha512_close c (fun _ => 0)).1,
    readBytes (sph_sha512_close c (fun _ => 0)).2 64)
  close_length := by intro c; simp [readBytes]

/-! ## Basic facts about the statements -/

theorem writeAt0_length (buf d : List Nat) (h : d.length ≤ buf.length) :
    (writeAt0 buf d).length = buf.length := by
  simp [writeAt0]; omega

theorem writeAt0_take (buf d : List Nat) : (writeAt0 buf d).take d.length = d := by
  simp [writeAt0]

theorem writeAt0_drop (buf d : List Nat) :
    (writeAt0 buf d).drop d.length = buf.drop d.length := by
  simp [writeAt0]

theorem digestBytes_le (e : EngineId) : digestBytes e ≤ 128 := by
  cases e <;> simp [digestBytes]

theorem stageDigest_length (e : EngineId) (m : Machine E) :
    (stageDigest E e m).length = digestBytes e :=
  (E e).close_length _

@[simp] theorem stage_hash (e : EngineId) (m : Machine E) :
    (stage E e m).hash = writeAt0 m.hash (stageDigest E e m) := by
  simp [stage, sph_close, absorb_hash, sph_absorb, stageDigest]

@[simp] theorem stage_state (e : EngineId) (m : Machine E) :
    (stage E e m).state = m.state := rfl

@[simp] theorem stage_base (e : EngineId) (m : Machine E) :
    (stage E e m).base_contexts = m.base_contexts := rfl

theorem stage_ctx (e : EngineId) (m : Machine E) :
    (stage E e m).ctx = Function.update m.ctx e (stageCtx E e m) := by
  simp [stage, sph_close, absorb_hash, sph_absorb, stageCtx]

theorem stage_log (e : EngineId) (m : Machine E) :
    (stage E e m).log = m.log ++
      [Call.absorb e (m.hash.take 128),
       Call.close e (stageDigest E e m) m.hash (writeAt0 m.hash (stageDigest E e m))] := by
  simp [stage, sph_close, absorb_hash, sph_absorb, stageDigest]

theorem stage_hash_length (e : EngineId) (m : Machine E) (h : m.hash.length = 128) :
    (stage E e m).hash.length = 128 := by
  rw [stage_hash, writeAt0_length, h]
  rw [stageDigest_length, h]; exact digestBytes_le e

theorem runStages_nil (m : Machine E) : runStages E [] m = m := rfl

theorem runStages_cons (e : EngineId) (es : List EngineId) (m : Machine E) :
    runStages E (e :: es) m = runStages E es (stage E e m) := rfl

theorem runStages_append (es fs : List EngineId) (m : Machine E) :
    runStages E (es ++ fs) m = runStages E fs (runStages E es m) := by
  simp [runStages, List.foldl_append]

theorem runStages_hash_length (es : List EngineId) (m : Machine E)
    (h : m.hash.length = 128) : (runStages E es m).hash.length = 128 := by
  induction es generalizing m with
  | nil => simpa [runStages_nil] using h
  | cons e es ih => rw [runStages_cons]; exact ih _ (stage_hash_length e m h)

theorem runStages_state (es : List EngineId) (m : Machine E) :
    (runStages E es m).state = m.state := by
  induction es generalizing m with
  | nil => rfl
  | cons e es ih => rw [runStages_cons, ih, stage_state]

theorem runStages_base (es : List EngineId) (m : Machine E) :
    (runStages E es m).base_contexts = m.base_contexts := by
  induction es generalizing m with
  | nil => rfl
  | cons e es ih => rw [runStages_cons, ih, stage_base]

/-- The source text of the two passes is the same stage, engine after engine. -/
theorem xevan_pass1_rest_eq (m : Machine E) :
    xevan_pass1_rest E m = runStages E restOrder m := rfl

theorem xevan_pass2_eq (m : Machine E) :
    xevan_pass2 E m = runStages E passOrder m := rfl

/-! ## The call log of the stages -/

theorem stage_kinds (e : EngineId) (m : Machine E) :
    (stage E e m).log.map Call.kind =
      m.log.map Call.kind ++ [CallKind.absorb e, CallKind.close e] := by
  simp [stage_log, Call.kind]

theorem runStages_kinds (es : List EngineId) (m : Machine E) :
    (runStages E es m).log.map Call.kind =
      m.log.map Call.kind ++ es.flatMap (fun e => [CallKind.absorb e, CallKind.close e]) := by
  induction es generalizing m with
  | nil => simp [runStages_nil]
  | cons e es ih => rw [runStages_cons, ih, stage_kinds]; simp

theorem stage_framed (e : EngineId) (m : Machine E) (h : m.hash.length = 128) :
    ∀ c ∈ [Call.absorb e (m.hash.take 128),
      Call.close e (stageDigest E e m) m.hash (writeAt0 m.hash (stageDigest E e m))],
      c.framed := by
  have hd := stageDigest_length e m
  have hle := digestBytes_le e
  intro c hc
  simp only [List.mem_cons, List.mem_singleton, List.not_mem_nil, or_false] at hc
  rcases hc with rfl | rfl
  · simp [Call.framed, h]
  · refine ⟨h, ?_, hd, ?_, ?_⟩
    · rw [writeAt0_length _ _ (by omega), h]
    · rw [← hd, writeAt0_take]
    · rw [← hd, writeAt0_drop]

/-- The stages only append to the log, two framed calls per stage. -/
theorem runStages_log (es : List EngineId) (m : Machine E) (h : m.hash.length = 128) :
    ∃ evs, (runStages E es m).log = m.log ++ evs ∧ evs.length = 2 * es.length ∧
      (∀ c ∈ evs, c.framed) ∧ StagePairs evs := by
  induction es generalizing m with
  | nil => exact ⟨[], by simp [runStages_nil, StagePairs]⟩
  | cons e es ih =>
    obtain ⟨evs, hlog, hlen, hfr, hp⟩ := ih (stage E e m) (stage_hash_length e m h)
    refine ⟨[Call.absorb e (m.hash.take 128),
      Call.close e (stageDigest E e m) m.hash (writeAt0 m.hash (stageDigest E e m))] ++ evs,
      ?_, ?_, ?_, ?_⟩
    · rw [runStages_cons, hlog, stage_log, List.append_assoc]
    · simp [hlen]; ring
    · intro c hc
      rcases List.mem_append.1 hc with hc | hc
      · exact stage_framed e m h c hc
      · exact hfr c hc
    · exact ⟨rfl, List.take_of_length_le (by omega), hp⟩

/-! ## Set-up and the first Blake stage -/

theorem xevan_setup_log (base : Xhash_context_holder E) (state : Mem) :
    (xevan_setup E base state).log = initCalls := by
  simp [xevan_setup, init_xevanhash_contexts, sph_init, initCalls, passOrder, restOrder]

theorem xevan_setup_hash (base : Xhash_context_holder E) (state : Mem) :
    (xevan_setup E base state).hash = List.replicate 128 0 := rfl

theorem xevan_setup_state (base : Xhash_context_holder E) (state : Mem) :
    (xevan_setup E base state).state = state := rfl

theorem xevan_setup_ctx (base : Xhash_context_holder E) (state : Mem) :
    (xevan_setup E base state).ctx = freshContexts E base := by
  funext e; cases e <;> rfl

theorem xevan_setup_base (base : Xhash_context_holder E) (state : Mem) :
    (xevan_setup E base state).base_contexts = freshContexts E base := by
  funext e; cases e <;> rfl

/-- The header bytes the first Blake stage absorbs. -/
theorem xevan_blake_first_eq (input : Mem) (version : Int) (m : Machine E) :
    xevan_blake_first E input version m =
      sph_close E .blake1
        (sph_absorb E .blake1 (readBytes input (if version = 4 then 112 else 80)) m) := by
  unfold xevan_blake_first
  split <;> rfl

theorem xevan_blake_first_hash (input : Mem) (version : Int) (m : Machine E) :
    (xevan_blake_first E input version m).hash =
      writeAt0 m.hash (((E .blake1).close ((E .blake1).update (m.ctx .blake1)
        (readBytes input (if version = 4 then 112 else 80)))).2) := by
  rw [xevan_blake_first_eq]; simp [sph_close, sph_absorb]

theorem xevan_blake_first_log (input : Mem) (version : Int) (m : Machine E) :
    (xevan_blake_first E input version m).log = m.log ++
      [Call.absorb .blake1 (readBytes input (if version = 4 then 112 else 80)),
       Call.close .blake1
        (((E .blake1).close ((E .blake1).update (m.ctx .blake1)
          (readBytes input (if version = 4 then 112 else 80)))).2)
        m.hash
        (writeAt0 m.hash (((E .blake1).close ((E .blake1).update (m.ctx .blake1)
          (readBytes input (if version = 4 then 112 else 80)))).2))] := by
  rw [xevan_blake_first_eq]; simp [sph_close, sph_absorb]

theorem xevan_blake_first_state (input : Mem) (version : Int) (m : Machine E) :
    (xevan_blake_first E input version m).state = m.state := by
  rw [xevan_blake_first_eq]; rfl

theorem xevan_blake_first_base (input : Mem) (version : Int) (m : Machine E) :
    (xevan_blake_first E input version m).base_contexts = m.base_contexts := by
  rw [xevan_blake_first_eq]; rfl

theorem xevan_blake_first_ctx (input : Mem) (version : Int) (m : Machine E) :
    (xevan_blake_first E input version m).ctx =
      Function.update m.ctx .blake1
        (((E .blake1).close ((E .blake1).update (m.ctx .blake1)
          (readBytes input (if version = 4 then 112 else 80)))).1) := by
  rw [xevan_blake_first_eq]; simp [sph_close, sph_absorb]

theorem xevan_blake_first_hash_length (input : Mem) (version : Int) (m : Machine E)
    (h : m.hash.length = 128) : (xevan_blake_first E input version m).hash.length = 128 := by
  rw [xevan_blake_first_hash, writeAt0_length, h]
  rw [(E .blake1).close_length, h]; decide

/-- The function as set-up, first Blake stage, sixteen stages, clearing of the
upper bytes, seventeen stages, copy-out. -/
theorem xevan_hash_eq (base : Xhash_context_holder E) (input state : Mem) (version : Int) :
    xevan_hash E base input state version =
      memcpy_state (runStages E passOrder (memset_hash8 (runStages E restOrder
        (xevan_blake_first E input version (xevan_setup E base state))))) := rfl

theorem memset_hash8_log (m : Machine E) : (memset_hash8 m).log = m.log := rfl

theorem memset_hash8_state (m : Machine E) : (memset_hash8 m).state = m.state := rfl

theorem memset_hash8_ctx (m : Machine E) : (memset_hash8 m).ctx = m.ctx := rfl

theorem memset_hash8_base (m : Machine E) :
    (memset_hash8 m).base_contexts = m.base_contexts := rfl

theorem memcpy_state_log (m : Machine E) : (memcpy_state m).log = m.log := rfl

theorem memcpy_state_hash (m : Machine E) : (memcpy_state m).hash = m.hash := rfl

theorem memcpy_state_base (m : Machine E) :
    (memcpy_state m).base_contexts = m.base_contexts := rfl

theorem memcpy_state_state (m : Machine E) :
    (memcpy_state m).state = memcpyTo m.state (m.hash.take 32) := rfl

theorem memset_hash8_hash_length (m : Machine E) (h : m.hash.length = 128) :
    (memset_hash8 m).hash.length = 128 := by
  simp [memset_hash8, h]

/-! ## Memory reads and writes -/

theorem readBytes_length (p : Mem) (len : Nat) : (readBytes p len).length = len := by
  simp [readBytes]

theorem readBytes_congr (p q : Mem) (len : Nat) (h : ∀ i, i < len → p i = q i) :
    readBytes p len = readBytes q len := by
  unfold readBytes
  apply List.map_congr_left
  intro i hi
  exact h i (List.mem_range.1 hi)

theorem memcpyTo_of_le (dst : Mem) (src : List Nat) (i : Nat) (h : src.length ≤ i) :
    memcpyTo dst src i = dst i := by
  unfold memcpyTo
  exact List.getD_eq_default _ _ h

theorem readBytes_memcpyTo (dst : Mem) (src : List Nat) :
    readBytes (memcpyTo dst src) src.length = src := by
  apply List.ext_getElem
  · simp [readBytes]
  · intro i h1 h2
    simp only [readBytes, memcpyTo, List.getElem_map, List.getElem_range]
    exact List.getD_eq_getElem _ _ h2

theorem readBytes_memcpyTo_of_length (dst : Mem) (src : List Nat) (n : Nat)
    (h : src.length = n) : readBytes (memcpyTo dst src) n = src := by
  subst h
  exact readBytes_memcpyTo dst src

/-! ## The scratch array keeps its 128 bytes -/

theorem xevan_pass1_eq (input : Mem) (version : Int) (m : Machine E) :
    xevan_pass1 E input version m =
      runStages E restOrder (xevan_blake_first E input version m) := rfl

theorem runStages_restOrder_last (m : Machine E) :
    runStages E restOrder m = stage E .haval1 (runStages E restOrder.dropLast m) := rfl

theorem runStages_passOrder_last (m : Machine E) :
    runStages E passOrder m = stage E .haval1 (runStages E passOrder.dropLast m) := rfl

theorem xevan_blake_hash_length (base : Xhash_context_holder E) (input state : Mem)
    (version : Int) :
    (xevan_blake_first E input version (xevan_setup E base state)).hash.length = 128 :=
  xevan_blake_first_hash_length input version _ (by simp [xevan_setup_hash])

theorem xevan_pass1_hash_length (base : Xhash_context_holder E) (input state : Mem)
    (version : Int) :
    (xevan_pass1 E input version (xevan_setup E base state)).hash.length = 128 := by
  rw [xevan_pass1_eq]
  exact runStages_hash_length _ _ (xevan_blake_hash_length base input state version)

/-- The log after the first Blake stage. -/
theorem xevan_blake_log (base : Xhash_context_holder E) (input state : Mem) (version : Int) :
    (xevan_blake_first E input version (xevan_setup E base state)).log =
      initCalls ++
      [Call.absorb .blake1 (readBytes input (if version = 4 then 112 else 80)),
       Call.close .blake1
        (freshDigest E (freshContexts E base) .blake1
          (readBytes input (if version = 4 then 112 else 80)))
        (List.replicate 128 0)
        (freshDigest E (freshContexts E base) .blake1
          (readBytes input (if version = 4 then 112 else 80)) ++ List.replicate 64 0)] := by
  have hlen : (freshDigest E (freshContexts E base) .blake1
      (readBytes input (if version = 4 then 112 else 80))).length = 64 :=
    (E .blake1).close_length _
  rw [xevan_blake_first_log, xevan_setup_log, xevan_setup_hash, xevan_setup_ctx]
  simp only [writeAt0]
  rw [show ((E .blake1).close ((E .blake1).update (freshContexts E base .blake1)
      (readBytes input (if version = 4 then 112 else 80)))).2 =
      freshDigest E (freshContexts E base) .blake1
        (readBytes input (if version = 4 then 112 else 80)) from rfl, hlen]
  simp

/-- The scratch array after the first Blake stage. -/
theorem xevan_blake_hash (base : Xhash_context_holder E) (input state : Mem) (version : Int) :
    (xevan_blake_first E input version (xevan_setup E base state)).hash =
      freshDigest E (freshContexts E base) .blake1
        (readBytes input (if version = 4 then 112 else 80)) ++ List.replicate 64 0 := by
  have hlen : (freshDigest E (freshContexts E base) .blake1
      (readBytes input (if version = 4 then 112 else 80))).length = 64 :=
    (E .blake1).close_length _
  rw [xevan_blake_first_hash, xevan_setup_hash, xevan_setup_ctx]
  simp only [writeAt0]
  rw [show ((E .blake1).close ((E .blake1).update (freshContexts E base .blake1)
      (readBytes input (if version = 4 then 112 else 80)))).2 =
      freshDigest E (freshContexts E base) .blake1
        (readBytes input (if version = 4 then 112 else 80)) from rfl, hlen]
  simp

/-- The log of the whole call from the end of the first Blake stage on: the
calls of the other sixteen stages of pass 1, then those of pass 2. -/
theorem xevan_hash_log_after_blake (base : Xhash_context_holder E) (input state : Mem)
    (version : Int) :
    ∃ evs1 evs2, (xevan_hash E base input state version).log =
        (xevan_blake_first E input version (xevan_setup E base state)).log ++ evs1 ++ evs2 ∧
      (xevan_pass1 E input version (xevan_setup E base state)).log =
        (xevan_blake_first E input version (xevan_setup E base state)).log ++ evs1 ∧
      evs1.length = 32 ∧ evs2.length = 34 ∧
      (∀ c ∈ evs1, c.framed) ∧ (∀ c ∈ evs2, c.framed) ∧
      StagePairs evs1 ∧ StagePairs evs2 := by
  obtain ⟨evs1, h1, l1, f1, p1⟩ := runStages_log restOrder
    (xevan_blake_first E input version (xevan_setup E base state))
    (xevan_blake_hash_length base input state version)
  have hm : (memset_hash8 (runStages E restOrder
      (xevan_blake_first E input version (xevan_setup E base state)))).hash.length = 128 :=
    memset_hash8_hash_length _
      (runStages_hash_length _ _ (xevan_blake_hash_length base input state version))
  obtain ⟨evs2, h2, l2, f2, p2⟩ := runStages_log passOrder _ hm
  refine ⟨evs1, evs2, ?_, ?_, ?_, ?_, f1, f2, p1, p2⟩
  · rw [xevan_hash_eq, memcpy_state_log, h2, memset_hash8_log, h1]
  · rw [xevan_pass1_eq, h1]
  · simp [l1, restOrder]
  · simp [l2, restOrder, passOrder]

/-! ## The digest in terms of the scratch array -/

theorem xevan_scratch_length (base : Xhash_context_holder E) (input state : Mem)
    (version : Int) :
    (runStages E passOrder (memset_hash8
      (xevan_pass1 E input version (xevan_setup E base state)))).hash.length = 128 :=
  runStages_hash_length _ _
    (memset_hash8_hash_length _ (xevan_pass1_hash_length base input state version))

/-- The 32 bytes the caller receives are the first 32 bytes of the scratch
array at the end of pass 2. -/
theorem xevan_digest_eq (base : Xhash_context_holder E) (input state : Mem) (version : Int) :
    xevan_digest E base input state version =
      (runStages E passOrder (memset_hash8
        (xevan_pass1 E input version (xevan_setup E base state)))).hash.take 32 := by
  have hlen := xevan_scratch_length base input state version
  have h32 : ((runStages E passOrder (memset_hash8
      (xevan_pass1 E input version (xevan_setup E base state)))).hash.take 32).length = 32 := by
    rw [List.length_take, hlen]; rfl
  unfold xevan_digest
  rw [xevan_hash_eq, ← xevan_pass1_eq, memcpy_state_state]
  exact readBytes_memcpyTo_of_length _ _ 32 h32

/-! ## Contexts that behave alike -/

theorem sph_absorb_alike (R : (e : EngineId) → (E e).Ctx → (E e).Ctx → Prop)
    (hR : ∀ e, (E e).Bisim (R e)) (e : EngineId) (data : List Nat) (m m' : Machine E)
    (h : Alike R m m') : Alike R (sph_absorb E e data m) (sph_absorb E e data m') := by
  refine ⟨fun e' => ?_, h.2⟩
  by_cases he : e' = e
  · subst he
    simpa [sph_absorb] using (hR e').update _ _ data (h.1 e')
  · simpa [sph_absorb, Function.update_noteq he] using h.1 e'

theorem sph_close_alike (R : (e : EngineId) → (E e).Ctx → (E e).Ctx → Prop)
    (hR : ∀ e, (E e).Bisim (R e)) (e : EngineId) (m m' : Machine E)
    (h : Alike R m m') : Alike R (sph_close E e m) (sph_close E e m') := by
  refine ⟨fun e' => ?_, ?_⟩
  · by_cases he : e' = e
    · subst he
      simpa [sph_close] using (hR e').close_ctx _ _ (h.1 e')
    · simpa [sph_close, Function.update_noteq he] using h.1 e'
  · simp only [sph_close]
    rw [(hR e).close_digest _ _ (h.1 e), h.2]

theorem stage_alike (R : (e : EngineId) → (E e).Ctx → (E e).Ctx → Prop)
    (hR : ∀ e, (E e).Bisim (R e)) (e : EngineId) (m m' : Machine E)
    (h : Alike R m m') : Alike R (stage E e m) (stage E e m') := by
  unfold stage absorb_hash
  apply sph_close_alike R hR
  rw [h.2]
  exact sph_absorb_alike R hR e _ m m' h

theorem runStages_alike (R : (e : EngineId) → (E e).Ctx → (E e).Ctx → Prop)
    (hR : ∀ e, (E e).Bisim (R e)) (es : List EngineId) (m m' : Machine E)
    (h : Alike R m m') : Alike R (runStages E es m) (runStages E es m') := by
  induction es generalizing m m' with
  | nil => exact h
  | cons e es ih => exact ih _ _ (stage_alike R hR e m m' h)

theorem memset_hash8_alike (R : (e : EngineId) → (E e).Ctx → (E e).Ctx → Prop)
    (m m' : Machine E) (h : Alike R m m') : Alike R (memset_hash8 m) (memset_hash8 m') := by
  refine ⟨h.1, ?_⟩
  simp only [memset_hash8]
  rw [h.2]

/-! ## Contexts that behave like the fresh ones -/

theorem stage_likeFresh (R : (e : EngineId) → (E e).Ctx → (E e).Ctx → Prop)
    (fresh : Xhash_context_holder E) (hR : ∀ e, (E e).Bisim (R e))
    (hclose : ∀ e c, R e ((E e).close c).1 (fresh e))
    (e : EngineId) (m : Machine E) (h : LikeFresh R fresh m) (hlen : m.hash.length = 128) :
    (stage E e m).hash = writeAt0 m.hash (freshDigest E fresh e m.hash) ∧
      LikeFresh R fresh (stage E e m) := by
  constructor
  · rw [stage_hash]
    unfold stageDigest freshDigest
    rw [List.take_of_length_le (by omega)]
    rw [(hR e).close_digest _ _ ((hR e).update _ _ m.hash (h e))]
  · intro e'
    rw [stage_ctx]
    by_cases he : e' = e
    · subst he
      rw [Function.update_same]
      exact hclose _ _
    · rw [Function.update_noteq he]
      exact h e'

theorem runStages_likeFresh (R : (e : EngineId) → (E e).Ctx → (E e).Ctx → Prop)
    (fresh : Xhash_context_holder E) (hR : ∀ e, (E e).Bisim (R e))
    (hclose : ∀ e c, R e ((E e).close c).1 (fresh e))
    (es : List EngineId) (m : Machine E) (h : LikeFresh R fresh m)
    (hlen : m.hash.length = 128) :
    (runStages E es m).hash =
        es.foldl (fun buf e => writeAt0 buf (freshDigest E fresh e buf)) m.hash ∧
      LikeFresh R fresh (runStages E es m) := by
  induction es generalizing m with
  | nil => exact ⟨rfl, h⟩
  | cons e es ih =>
    obtain ⟨h1, h2⟩ := stage_likeFresh R fresh hR hclose e m h hlen
    obtain ⟨h3, h4⟩ := ih (stage E e m) h2 (stage_hash_length e m hlen)
    refine ⟨?_, h4⟩
    rw [runStages_cons, h3, h1]
    rfl

/-! ## The claims about the orchestration -/

/-- C1: the version argument alone selects the header length.  The first
absorb of the call, right after the initialisers, is Blake absorbing the first
112 bytes behind `input` when `version = 4` and the first 80 bytes for every
other version; hence inputs that agree on those bytes give the same 32-byte
digest. -/
theorem xevan_hash_header_length (E : Engines) (base : Xhash_context_holder E)
    (state : Mem) (version : Int) :
    (∀ input, version = 4 → ∃ rest, (xevan_hash E base input state version).log =
        initCalls ++ Call.absorb .blake1 (readBytes input 112) :: rest) ∧
    (∀ input, version ≠ 4 → ∃ rest, (xevan_hash E base input state version).log =
        initCalls ++ Call.absorb .blake1 (readBytes input 80) :: rest) ∧
    (∀ input input', version ≠ 4 → (∀ i, i < 80 → input i = input' i) →
        xevan_digest E base input state version = xevan_digest E base input' state version) ∧
    (∀ input input', version = 4 → (∀ i, i < 112 → input i = input' i) →
        xevan_digest E base input state version = xevan_digest E base input' state version) := by
  refine ⟨?_, ?_, ?_, ?_⟩
  · intro input hv
    obtain ⟨evs1, evs2, h, -⟩ := xevan_hash_log_after_blake base input state version
    rw [h, xevan_blake_log, if_pos hv, List.append_assoc, List.append_assoc]
    exact ⟨_, rfl⟩
  · intro input hv
    obtain ⟨evs1, evs2, h, -⟩ := xevan_hash_log_after_blake base input state version
    rw [h, xevan_blake_log, if_neg hv, List.append_assoc, List.append_assoc]
    exact ⟨_, rfl⟩
  · intro input input' hv h
    unfold xevan_digest
    rw [xevan_hash_eq, xevan_hash_eq, xevan_blake_first_eq, xevan_blake_first_eq,
      if_neg hv, readBytes_congr input input' 80 h]
  · intro input input' hv h
    unfold xevan_digest
    rw [xevan_hash_eq, xevan_hash_eq, xevan_blake_first_eq, xevan_blake_first_eq,
      if_pos hv, readBytes_congr input input' 112 h]

/-- C2: for every input and version the call log consists of the seventeen
initialisers followed by two passes with the same sequence of calls: absorb
then close for Blake, BMW, Groestl, Skein, JH, Keccak, Luffa, CubeHash,
Shavite, SIMD, Echo, Hamsi, Fugue, Shabal, Whirlpool, SHA-512, Haval, in this
order, each engine absorbed into once and closed once per pass. -/
theorem xevan_hash_stage_order (E : Engines) (base : Xhash_context_holder E)
    (input state : Mem) (version : Int) :
    (xevan_hash E base input state version).log.map Call.kind =
        passOrder.map CallKind.init ++ passKinds ++ passKinds ∧
    passOrder =
      [.blake1, .bmw1, .groestl1, .skein1, .jh1, .keccak1, .luffa1, .cubehash1,
       .shavite1, .simd1, .echo1, .hamsi1, .fugue1, .shabal1, .whirlpool1, .sha512,
       .haval1] ∧
    (∀ e, passKinds.count (CallKind.absorb e) = 1 ∧ passKinds.count (CallKind.close e) = 1) := by
  refine ⟨?_, rfl, ?_⟩
  · rw [xevan_hash_eq, memcpy_state_log, runStages_kinds, memset_hash8_log, runStages_kinds,
      xevan_blake_first_log, xevan_setup_log]
    simp [initCalls, passKinds, passOrder, restOrder, Call.kind]
  · intro e
    cases e <;> decide

/-- C3: the call writes exactly 32 bytes behind the output pointer.  They are
bytes 0 .. 31 of the scratch array as the last call of the log, the Haval
close of pass 2, left it, that is the 32-byte Haval digest; the output memory
from offset 32 on is what it was before the call. -/
theorem xevan_hash_output (E : Engines) (base : Xhash_context_holder E)
    (input state : Mem) (version : Int) :
    ∃ digest before,
      (xevan_hash E base input state version).log.getLast? =
        some (Call.close .haval1 digest before (xevan_hash E base input state version).hash) ∧
      digest.length = 32 ∧
      (xevan_hash E base input state version).hash.length = 128 ∧
      (xevan_hash E base input state version).hash.take 32 = digest ∧
      xevan_digest E base input state version = digest ∧
      ∀ i, 32 ≤ i → (xevan_hash E base input state version).state i = state i := by
  have hlen4 : (memset_hash8 (runStages E restOrder
      (xevan_blake_first E input version (xevan_setup E base state)))).hash.length = 128 :=
    memset_hash8_hash_length _
      (runStages_hash_length _ _ (xevan_blake_hash_length base input state version))
  have hlen5 := runStages_hash_length passOrder.dropLast _ hlen4
  have hlen6 := runStages_hash_length passOrder _ hlen4
  have hstate : (runStages E passOrder (memset_hash8 (runStages E restOrder
      (xevan_blake_first E input version (xevan_setup E base state))))).state = state := by
    rw [runStages_state, memset_hash8_state, runStages_state, xevan_blake_first_state,
      xevan_setup_state]
  generalize hm4 : memset_hash8 (runStages E restOrder
      (xevan_blake_first E input version (xevan_setup E base state))) = m4 at *
  have hd : (stageDigest E .haval1 (runStages E passOrder.dropLast m4)).length = 32 :=
    stageDigest_length _ _
  have htake : (runStages E passOrder m4).hash.take 32 =
      stageDigest E .haval1 (runStages E passOrder.dropLast m4) := by
    rw [runStages_passOrder_last, stage_hash]
    conv_lhs => rw [← hd]
    exact writeAt0_take _ _
  refine ⟨stageDigest E .haval1 (runStages E passOrder.dropLast m4),
    (runStages E passOrder.dropLast m4).hash, ?_, hd, ?_, ?_, ?_, ?_⟩
  · rw [xevan_hash_eq, hm4, memcpy_state_log, memcpy_state_hash, runStages_passOrder_last,
      stage_log, stage_hash]
    simp
  · rw [xevan_hash_eq, hm4, memcpy_state_hash]; exact hlen6
  · rw [xevan_hash_eq, hm4, memcpy_state_hash]; exact htake
  · unfold xevan_digest
    rw [xevan_hash_eq, hm4, memcpy_state_state, htake]
    conv_lhs => rw [← hd]
    exact readBytes_memcpyTo _ _
  · intro i hi
    rw [xevan_hash_eq, hm4, memcpy_state_state, htake, memcpyTo_of_le _ _ _ (by omega), hstate]

/-- C4: pass 1 ends with the Haval close, whose 32-byte digest occupies bytes
0 .. 31 of the scratch array; the `memset` that follows leaves those bytes and
clears bytes 32 .. 127, and the next call of the log, the Blake absorb of
pass 2, receives the 32-byte digest followed by 96 zero bytes. -/
theorem xevan_hash_pass2_message (E : Engines) (base : Xhash_context_holder E)
    (input state : Mem) (version : Int) :
    ∃ digest before after tail,
      (xevan_pass1 E input version (xevan_setup E base state)).log.getLast? =
        some (Call.close .haval1 digest before after) ∧
      digest.length = 32 ∧
      (xevan_pass1 E input version (xevan_setup E base state)).hash = after ∧
      after.take 32 = digest ∧
      (memset_hash8 (xevan_pass1 E input version (xevan_setup E base state))).hash =
        digest ++ List.replicate 96 0 ∧
      (xevan_hash E base input state version).log =
        (xevan_pass1 E input version (xevan_setup E base state)).log ++
          Call.absorb .blake1 (digest ++ List.replicate 96 0) :: tail := by
  have hlen1 := xevan_blake_hash_length base input state version
  have hlenp := xevan_pass1_hash_length base input state version
  rw [xevan_hash_eq, ← xevan_pass1_eq]
  rw [xevan_pass1_eq] at hlenp ⊢
  generalize xevan_blake_first E input version (xevan_setup E base state) = m1 at *
  have hlen' := runStages_hash_length restOrder.dropLast m1 hlen1
  rw [runStages_restOrder_last] at hlenp ⊢
  generalize runStages E restOrder.dropLast m1 = m' at *
  have hd : (stageDigest E .haval1 m').length = 32 := stageDigest_length _ _
  have htake : (writeAt0 m'.hash (stageDigest E .haval1 m')).take 32 =
      stageDigest E .haval1 m' := by
    conv_lhs => rw [← hd]
    exact writeAt0_take _ _
  have hset : (memset_hash8 (stage E .haval1 m')).hash =
      stageDigest E .haval1 m' ++ List.replicate 96 0 := by
    rw [stage_hash] at hlenp
    simp only [memset_hash8, stage_hash]
    rw [htake, List.drop_of_length_le (by omega)]
    simp
  have hset_len : (memset_hash8 (stage E .haval1 m')).hash.length = 128 := by
    rw [hset]; simp [hd]
  obtain ⟨evs, hlog, -, -, -⟩ := runStages_log restOrder
    (stage E .blake1 (memset_hash8 (stage E .haval1 m')))
    (stage_hash_length _ _ hset_len)
  refine ⟨stageDigest E .haval1 m', m'.hash, writeAt0 m'.hash (stageDigest E .haval1 m'),
    Call.close .blake1 (stageDigest E .blake1 (memset_hash8 (stage E .haval1 m')))
      (memset_hash8 (stage E .haval1 m')).hash
      (writeAt0 (memset_hash8 (stage E .haval1 m')).hash
        (stageDigest E .blake1 (memset_hash8 (stage E .haval1 m')))) :: evs,
    ?_, hd, ?_, htake, hset, ?_⟩
  · rw [stage_log]; simp
  · rw [stage_hash]
  · rw [memcpy_state_log]
    show (runStages E restOrder (stage E .blake1 (memset_hash8 (stage E .haval1 m')))).log = _
    rw [hlog, stage_log, memset_hash8_log, List.take_of_length_le (by omega), hset,
      List.append_assoc]
    rfl

/-- C6: the first close of the log, that of Blake, receives the zero-filled
128-byte scratch array and leaves the 64-byte Blake-512 digest of the header
followed by 64 zero bytes; the next call is the BMW absorb, which receives
exactly these 128 bytes. -/
theorem xevan_hash_bmw_message (E : Engines) (base : Xhash_context_holder E)
    (input state : Mem) (version : Int) :
    ∃ digest tail,
      digest = freshDigest E (freshContexts E base) .blake1
        (readBytes input (if version = 4 then 112 else 80)) ∧
      digest.length = 64 ∧
      (xevan_hash E base input state version).log =
        initCalls ++
        [Call.absorb .blake1 (readBytes input (if version = 4 then 112 else 80)),
         Call.close .blake1 digest (List.replicate 128 0) (digest ++ List.replicate 64 0),
         Call.absorb .bmw1 (digest ++ List.replicate 64 0)] ++ tail := by
  have hlen : (freshDigest E (freshContexts E base) .blake1
      (readBytes input (if version = 4 then 112 else 80))).length = 64 :=
    (E .blake1).close_length _
  have hlen1 := xevan_blake_hash_length base input state version
  have hhash := xevan_blake_hash base input state version
  have hlog1 := xevan_blake_log base input state version
  obtain ⟨evs1, hl1, -, -, -⟩ := runStages_log restOrder.tail
    (stage E .bmw1 (xevan_blake_first E input version (xevan_setup E base state)))
    (stage_hash_length _ _ hlen1)
  have hm : (memset_hash8 (runStages E restOrder
      (xevan_blake_first E input version (xevan_setup E base state)))).hash.length = 128 :=
    memset_hash8_hash_length _ (runStages_hash_length _ _ hlen1)
  obtain ⟨evs2, hl2, -, -, -⟩ := runStages_log passOrder _ hm
  refine ⟨_, ?_, rfl, hlen, ?_⟩
  · exact Call.close .bmw1
      (stageDigest E .bmw1 (xevan_blake_first E input version (xevan_setup E base state)))
      (xevan_blake_first E input version (xevan_setup E base state)).hash
      (writeAt0 (xevan_blake_first E input version (xevan_setup E base state)).hash
        (stageDigest E .bmw1 (xevan_blake_first E input version (xevan_setup E base state))))
      :: (evs1 ++ evs2)
  · rw [xevan_hash_eq, memcpy_state_log, hl2, memset_hash8_log]
    rw [show runStages E restOrder
        (xevan_blake_first E input version (xevan_setup E base state)) =
      runStages E restOrder.tail
        (stage E .bmw1 (xevan_blake_first E input version (xevan_setup E base state)))
      from rfl]
    rw [hl1, stage_log, hlog1, List.take_of_length_le (by omega), hhash]
    simp only [List.append_assoc, List.cons_append, List.nil_append]

/-- C7: apart from the first Blake absorb, every absorb of the call receives
128 bytes, namely the whole scratch array handed to the close that follows it,
and every close receives and leaves a 128-byte array in which only the first
`N` bytes are rewritten (with the digest), bytes `N .. 127` staying as they
were; `N` is 64 for every engine except Haval, for which it is 32. -/
theorem xevan_hash_frame (E : Engines) (base : Xhash_context_holder E)
    (input state : Mem) (version : Int) :
    (∃ first evs1 evs2,
      (xevan_hash E base input state version).log =
        initCalls ++
          Call.absorb .blake1 (readBytes input (if version = 4 then 112 else 80)) ::
          first :: (evs1 ++ evs2) ∧
      evs1.length = 32 ∧ evs2.length = 34 ∧
      StagePairs evs1 ∧ StagePairs evs2 ∧
      (∀ e data, Call.absorb e data ∈ evs1 ++ evs2 → data.length = 128) ∧
      (∀ e digest before after, Call.close e digest before after ∈ first :: (evs1 ++ evs2) →
        before.length = 128 ∧ after.length = 128 ∧ digest.length = digestBytes e ∧
        after.take (digestBytes e) = digest ∧
        after.drop (digestBytes e) = before.drop (digestBytes e)) ∧
      (∀ e, Call.init e ∉ first :: (evs1 ++ evs2))) ∧
    (∀ e, e ≠ EngineId.haval1 → digestBytes e = 64) ∧ digestBytes .haval1 = 32 := by
  refine ⟨?_, ?_, rfl⟩
  · obtain ⟨evs1, evs2, hlog, -, l1, l2, f1, f2, p1, p2⟩ :=
      xevan_hash_log_after_blake base input state version
    have hlen : (freshDigest E (freshContexts E base) .blake1
        (readBytes input (if version = 4 then 112 else 80))).length = 64 :=
      (E .blake1).close_length _
    have hfirst : (Call.close .blake1
        (freshDigest E (freshContexts E base) .blake1
          (readBytes input (if version = 4 then 112 else 80)))
        (List.replicate 128 0)
        (freshDigest E (freshContexts E base) .blake1
          (readBytes input (if version = 4 then 112 else 80)) ++ List.replicate 64 0)).framed := by
      refine ⟨by simp, by simp [hlen], hlen, ?_, ?_⟩
      · show List.take 64 _ = _
        rw [← hlen, List.take_left]
      · show List.drop 64 _ = List.drop 64 _
        rw [← hlen, List.drop_left, hlen]; simp
    have hall : ∀ c ∈ Call.close .blake1
        (freshDigest E (freshContexts E base) .blake1
          (readBytes input (if version = 4 then 112 else 80)))
        (List.replicate 128 0)
        (freshDigest E (freshContexts E base) .blake1
          (readBytes input (if version = 4 then 112 else 80)) ++ List.replicate 64 0) ::
        (evs1 ++ evs2), c.framed := by
      intro c hc
      rcases List.mem_cons.1 hc with rfl | hc
      · exact hfirst
      · rcases List.mem_append.1 hc with hc | hc
        · exact f1 c hc
        · exact f2 c hc
    refine ⟨Call.close .blake1
        (freshDigest E (freshContexts E base) .blake1
          (readBytes input (if version = 4 then 112 else 80)))
        (List.replicate 128 0)
        (freshDigest E (freshContexts E base) .blake1
          (readBytes input (if version = 4 then 112 else 80)) ++ List.replicate 64 0),
      evs1, evs2, ?_, l1, l2, p1, p2, ?_, ?_, ?_⟩
    · rw [hlog, xevan_blake_log]
      simp only [List.append_assoc, List.cons_append, List.nil_append]
    · intro e data hmem
      exact hall _ (List.mem_cons_of_mem _ hmem)
    · intro e digest before after hmem
      exact hall _ hmem
    · intro e hmem
      exact hall _ hmem
  · intro e he
    cases e <;> first | rfl | exact absurd rfl he

/-! ## The contracts read literally -/

theorem Engine.bisim_eq {n : Nat} (X : Engine n) : X.Bisim Eq where
  update := by intro c c' data h; rw [h]
  close_ctx := by intro c c' h; rw [h]
  close_digest := by intro c c' h; rw [h]

/-- An engine whose close leaves exactly the context `c0` closes to `c0`. -/
theorem Engine.closesTo_of_eq {n : Nat} (X : Engine n) (c0 : X.Ctx)
    (h : ∀ c, (X.close c).1 = c0) : X.ClosesTo c0 :=
  ⟨Eq, X.bisim_eq, rfl, h⟩

/-- An engine whose init overwrites the whole context has a fresh init. -/
theorem Engine.initFresh_of_eq {n : Nat} (X : Engine n)
    (h : ∀ c c', X.init c = X.init c') : X.InitFresh :=
  ⟨Eq, X.bisim_eq, h⟩

/-! ## Refinement and determinism -/

theorem xevan_setup_likeFresh (R : (e : EngineId) → (E e).Ctx → (E e).Ctx → Prop)
    (base : Xhash_context_holder E) (state : Mem)
    (hrefl : ∀ e, R e (freshContexts E base e) (freshContexts E base e)) :
    LikeFresh R (freshContexts E base) (xevan_setup E base state) := by
  intro e
  rw [xevan_setup_ctx]
  exact hrefl e

theorem xevan_blake_first_likeFresh (R : (e : EngineId) → (E e).Ctx → (E e).Ctx → Prop)
    (fresh : Xhash_context_holder E) (hclose : ∀ e c, R e ((E e).close c).1 (fresh e))
    (input : Mem) (version : Int) (m : Machine E) (h : LikeFresh R fresh m) :
    LikeFresh R fresh (xevan_blake_first E input version m) := by
  intro e
  rw [xevan_blake_first_ctx]
  by_cases he : e = .blake1
  · subst he
    rw [Function.update_same]
    exact hclose _ _
  · rw [Function.update_noteq he]
    exact h e

/-- The first pass leaves the buffer of `Chain` applied to the header. -/
theorem xevan_pass1_chain (R : (e : EngineId) → (E e).Ctx → (E e).Ctx → Prop)
    (base : Xhash_context_holder E) (hR : ∀ e, (E e).Bisim (R e))
    (hrefl : ∀ e, R e (freshContexts E base e) (freshContexts E base e))
    (hclose : ∀ e c, R e ((E e).close c).1 (freshContexts E base e))
    (input state : Mem) (version : Int) :
    (xevan_pass1 E input version (xevan_setup E base state)).hash =
        Chain E (freshContexts E base) (readBytes input (if version = 4 then 112 else 80)) ∧
      LikeFresh R (freshContexts E base)
        (xevan_pass1 E input version (xevan_setup E base state)) := by
  have h0 := xevan_setup_likeFresh R base state hrefl
  have h1 := xevan_blake_first_likeFresh R _ hclose input version _ h0
  obtain ⟨h2, h3⟩ := runStages_likeFresh R _ hR hclose restOrder _ h1
    (xevan_blake_hash_length base input state version)
  refine ⟨?_, h3⟩
  rw [xevan_pass1_eq, h2, xevan_blake_first_hash, xevan_setup_hash, xevan_setup_ctx]
  rfl

/-- A pass over a 128-byte array whose upper half is zero leaves the buffer of
`Chain` applied to that array. -/
theorem xevan_pass2_chain (R : (e : EngineId) → (E e).Ctx → (E e).Ctx → Prop)
    (fresh : Xhash_context_holder E) (hR : ∀ e, (E e).Bisim (R e))
    (hclose : ∀ e c, R e ((E e).close c).1 (fresh e))
    (m : Machine E) (h : LikeFresh R fresh m) (hlen : m.hash.length = 128)
    (hzero : m.hash.drop 64 = List.replicate 64 0) :
    (xevan_pass2 E m).hash = Chain E fresh m.hash := by
  obtain ⟨h1, h2⟩ := stage_likeFresh R fresh hR hclose .blake1 m h hlen
  obtain ⟨h3, -⟩ := runStages_likeFresh R fresh hR hclose restOrder _ h2
    (stage_hash_length _ _ hlen)
  have hd : (freshDigest E fresh .blake1 m.hash).length = 64 := (E .blake1).close_length _
  rw [xevan_pass2_eq]
  show (runStages E restOrder (stage E .blake1 m)).hash = _
  rw [h3, h1]
  unfold Chain
  congr 1
  unfold writeAt0
  rw [hd, hzero]
  simp

theorem memset_hash8_hash (m : Machine E) (hlen : m.hash.length = 128) :
    (memset_hash8 m).hash = m.hash.take 32 ++ List.replicate 96 0 := by
  simp only [memset_hash8]
  rw [List.drop_of_length_le (by omega)]
  simp

/-- C5: when every engine's close returns its context to the initial state
(the context the template holds after init, up to what the interface can
observe), the reused contexts of pass 2 give what fresh ones give: pass 2
leaves the buffer `Chain` computes from its 128-byte input, and the digest is
the first 32 bytes of `Chain` applied to the first 32 bytes of `Chain` of the
header followed by 96 zero bytes, the header being the first 80 bytes of the
input, or the first 112 when `version = 4`. -/
theorem xevan_hash_refines_chain (E : Engines) (base : Xhash_context_holder E)
    (input state : Mem) (version : Int)
    (h : ∀ e, (E e).ClosesTo (freshContexts E base e)) :
    (xevan_pass2 E (memset_hash8 (xevan_pass1 E input version (xevan_setup E base state)))).hash =
      Chain E (freshContexts E base)
        (memset_hash8 (xevan_pass1 E input version (xevan_setup E base state))).hash ∧
    xevan_digest E base input state version =
      (Chain E (freshContexts E base)
        ((Chain E (freshContexts E base)
            (readBytes input (if version = 4 then 112 else 80))).take 32 ++
          List.replicate 96 0)).take 32 := by
  choose R hR using h
  have hB : ∀ e, (E e).Bisim (R e) := fun e => (hR e).1
  have hrefl := fun e => (hR e).2.1
  have hclose := fun e => (hR e).2.2
  obtain ⟨hp1, hl1⟩ := xevan_pass1_chain R base hB hrefl hclose input state version
  have hlen1 := xevan_pass1_hash_length base input state version
  have hset := memset_hash8_hash _ hlen1
  have hl4 : LikeFresh R (freshContexts E base)
      (memset_hash8 (xevan_pass1 E input version (xevan_setup E base state))) := hl1
  have hlen4 := memset_hash8_hash_length _ hlen1
  have hzero : (memset_hash8 (xevan_pass1 E input version (xevan_setup E base state))).hash.drop 64
      = List.replicate 64 0 := by
    rw [hset]
    have h32 : ((xevan_pass1 E input version (xevan_setup E base state)).hash.take 32).length
        = 32 := by
      rw [List.length_take, hlen1]; rfl
    rw [List.drop_append_eq_append_drop, List.drop_of_length_le (by omega), h32]
    simp
  have hp2 := xevan_pass2_chain R _ hB hclose _ hl4 hlen4 hzero
  refine ⟨hp2, ?_⟩
  rw [xevan_digest_eq, ← xevan_pass2_eq, hp2, hset, hp1]

/-- C8: when every engine's init produces a fresh state (contexts behave the
same after init whatever they held before), the digest is a function of the
header bytes and the version alone: two calls whose inputs agree on the header
return the same 32 bytes, whatever `base_contexts` and the output memory held
before either call. -/
theorem xevan_hash_deterministic (E : Engines) (h : ∀ e, (E e).InitFresh)
    (base base' : Xhash_context_holder E) (input input' state state' : Mem) (version : Int)
    (hin : ∀ i, i < (if version = 4 then 112 else 80) → input i = input' i) :
    xevan_digest E base input state version = xevan_digest E base' input' state' version := by
  choose R hR using h
  have hB : ∀ e, (E e).Bisim (R e) := fun e => (hR e).1
  have h0 : Alike R (xevan_setup E base state) (xevan_setup E base' state') := by
    refine ⟨fun e => ?_, ?_⟩
    · rw [xevan_setup_ctx, xevan_setup_ctx]
      exact (hR e).2 _ _
    · rw [xevan_setup_hash, xevan_setup_hash]
  have h1 : Alike R (xevan_blake_first E input version (xevan_setup E base state))
      (xevan_blake_first E input' version (xevan_setup E base' state')) := by
    rw [xevan_blake_first_eq, xevan_blake_first_eq, readBytes_congr input input' _ hin]
    exact sph_close_alike R hB _ _ _ (sph_absorb_alike R hB _ _ _ _ h0)
  have h5 := runStages_alike R hB passOrder _ _
    (memset_hash8_alike R _ _ (runStages_alike R hB restOrder _ _ h1))
  rw [xevan_digest_eq, xevan_digest_eq, xevan_pass1_eq, xevan_pass1_eq, h5.2]

/-! ## Absence of checks, and the number of stages -/

theorem readBytes_bufMem (buf : List Nat) (after : Mem) (n : Nat) (h : buf.length ≤ n) :
    readBytes (bufMem buf after) n = buf ++ readBytes after (n - buf.length) := by
  apply List.ext_getElem
  · simp [readBytes]; omega
  · intro i h1 h2
    simp only [readBytes, bufMem, List.getElem_map, List.getElem_range]
    by_cases hi : i < buf.length
    · rw [if_pos hi, List.getElem_append_left hi]
      exact List.getD_eq_getElem _ _ hi
    · rw [if_neg hi, List.getElem_append_right (by omega)]
      simp

theorem filter_isClose_kinds (evs : List Call) :
    (evs.filter Call.isClose).length =
      ((evs.map Call.kind).filter CallKind.isClose).length := by
  induction evs with
  | nil => rfl
  | cons c evs ih =>
    cases c <;> simp [List.filter_cons, Call.isClose, Call.kind, CallKind.isClose, ih]

theorem filter_isAbsorb_kinds (evs : List Call) :
    (evs.filter Call.isAbsorb).length =
      ((evs.map Call.kind).filter CallKind.isAbsorb).length := by
  induction evs with
  | nil => rfl
  | cons c evs ih =>
    cases c <;> simp [List.filter_cons, Call.isAbsorb, Call.kind, CallKind.isAbsorb, ih]

/-- The calls of each pass, with their kinds. -/
theorem xevan_hash_pass_logs (base : Xhash_context_holder E) (input state : Mem)
    (version : Int) :
    ∃ evs1 evs2,
      (xevan_pass1 E input version (xevan_setup E base state)).log = initCalls ++ evs1 ∧
      (xevan_hash E base input state version).log = initCalls ++ evs1 ++ evs2 ∧
      evs1.map Call.kind = passKinds ∧ evs2.map Call.kind = passKinds := by
  obtain ⟨evs1, evs2, hlog, hp1, -, -, -, -, -, -⟩ :=
    xevan_hash_log_after_blake base input state version
  have hk1 := runStages_kinds restOrder
    (xevan_blake_first E input version (xevan_setup E base state))
  have hk2 := runStages_kinds passOrder (memset_hash8 (runStages E restOrder
    (xevan_blake_first E input version (xevan_setup E base state))))
  rw [← xevan_pass1_eq] at hk1 hk2
  have hfull : (xevan_hash E base input state version).log =
      (runStages E passOrder (memset_hash8
        (xevan_pass1 E input version (xevan_setup E base state)))).log := by
    rw [xevan_hash_eq, memcpy_state_log, ← xevan_pass1_eq]
  rw [← hfull, memset_hash8_log, hlog, ← hp1, List.map_append] at hk2
  rw [hp1, List.map_append] at hk1
  have h1 := List.append_cancel_left hk1
  have h2 := List.append_cancel_left hk2
  obtain ⟨bl, hbl, hblk⟩ : ∃ bl,
      (xevan_blake_first E input version (xevan_setup E base state)).log = initCalls ++ bl ∧
      bl.map Call.kind = [CallKind.absorb .blake1, CallKind.close .blake1] :=
    ⟨_, xevan_blake_log base input state version, rfl⟩
  rw [hbl] at hlog hp1
  refine ⟨bl ++ evs1, evs2, ?_, ?_, ?_, h2⟩
  · rw [hp1, List.append_assoc]
  · rw [hlog, List.append_assoc initCalls]
  · rw [List.map_append, h1, hblk]
    rfl

/-- C9 (amended): the function has no length arguments, no error result and
no check.  Whatever the sizes of the caller's buffers, the call goes through:
after the initialisers Blake absorbs 80 bytes (112 when `version = 4`)
starting at the input pointer, which for a shorter buffer are the buffer
followed by the memory behind it; all 68 engine calls are made; and 32 bytes
are written from the output pointer on. -/
theorem xevan_hash_unchecked (E : Engines) (base : Xhash_context_holder E)
    (inBuf outBuf : List Nat) (inAfter outAfter : Mem) (version : Int) :
    (∃ rest, (xevan_hash E base (bufMem inBuf inAfter) (bufMem outBuf outAfter) version).log =
        initCalls ++
          Call.absorb .blake1
            (readBytes (bufMem inBuf inAfter) (if version = 4 then 112 else 80)) :: rest ∧
        rest.length = 67) ∧
    (inBuf.length ≤ (if version = 4 then 112 else 80) →
      readBytes (bufMem inBuf inAfter) (if version = 4 then 112 else 80) =
        inBuf ++ readBytes inAfter ((if version = 4 then 112 else 80) - inBuf.length)) ∧
    readBytes (xevan_hash E base (bufMem inBuf inAfter) (bufMem outBuf outAfter) version).state 32
      = (xevan_hash E base (bufMem inBuf inAfter) (bufMem outBuf outAfter) version).hash.take 32 ∧
    ((xevan_hash E base (bufMem inBuf inAfter) (bufMem outBuf outAfter) version).hash.take
      32).length = 32 := by
  have hlen := xevan_scratch_length base (bufMem inBuf inAfter) (bufMem outBuf outAfter) version
  have hhash : (xevan_hash E base (bufMem inBuf inAfter) (bufMem outBuf outAfter) version).hash =
      (runStages E passOrder (memset_hash8 (xevan_pass1 E (bufMem inBuf inAfter) version
        (xevan_setup E base (bufMem outBuf outAfter))))).hash := by
    rw [xevan_hash_eq, memcpy_state_hash, ← xevan_pass1_eq]
  refine ⟨?_, fun h => readBytes_bufMem _ _ _ h, ?_, ?_⟩
  · obtain ⟨evs1, evs2, hlog, -, l1, l2, -⟩ :=
      xevan_hash_log_after_blake base (bufMem inBuf inAfter) (bufMem outBuf outAfter) version
    rw [hlog, xevan_blake_log, List.append_assoc, List.append_assoc]
    refine ⟨_, rfl, ?_⟩
    simp [l1, l2]
  · rw [hhash]
    exact xevan_digest_eq base (bufMem inBuf inAfter) (bufMem outBuf outAfter) version
  · rw [hhash, List.length_take, hlen]
    rfl

/-- C10 (amended): each pass applies seventeen engines to the working buffer,
Blake and the sixteen that follow it: the calls of a pass are seventeen
absorbs and seventeen closes, and the holder has seventeen fields. -/
theorem xevan_hash_seventeen_stages (E : Engines) (base : Xhash_context_holder E)
    (input state : Mem) (version : Int) :
    (∃ evs1 evs2,
      (xevan_pass1 E input version (xevan_setup E base state)).log = initCalls ++ evs1 ∧
      (xevan_hash E base input state version).log = initCalls ++ evs1 ++ evs2 ∧
      (evs1.filter Call.isAbsorb).length = 17 ∧ (evs1.filter Call.isClose).length = 17 ∧
      (evs2.filter Call.isAbsorb).length = 17 ∧ (evs2.filter Call.isClose).length = 17) ∧
    Fintype.card EngineId = 17 ∧
    passOrder.length = 17 ∧ passOrder.Nodup := by
  refine ⟨?_, by decide, by decide, by decide⟩
  obtain ⟨evs1, evs2, h1, h2, k1, k2⟩ := xevan_hash_pass_logs base input state version
  refine ⟨evs1, evs2, h1, h2, ?_, ?_, ?_, ?_⟩
  · rw [filter_isAbsorb_kinds, k1]; decide
  · rw [filter_isClose_kinds, k1]; decide
  · rw [filter_isAbsorb_kinds, k2]; decide
  · rw [filter_isClose_kinds, k2]; decide

/-! ## The concrete instance satisfies the engine contracts -/

theorem toyEngine_bisim (n : Nat) :
    (toyEngine n).Bisim (fun c c' : ToyCtx => c.acc = c'.acc) where
  update := by
    intro c c' data h
    show List.foldl _ c.acc data = List.foldl _ c'.acc data
    rw [h]
  close_ctx := by
    intro c c' _
    rfl
  close_digest := by
    intro c c' h
    show List.map _ _ = List.map _ _
    rw [h]

theorem toyEngines_closesTo (base : Xhash_context_holder toyEngines) (e : EngineId) :
    (toyEngines e).ClosesTo (freshContexts toyEngines base e) :=
  ⟨fun c c' : ToyCtx => c.acc = c'.acc, toyEngine_bisim _, rfl, fun _ => rfl⟩

theorem toyEngines_initFresh (e : EngineId) : (toyEngines e).InitFresh :=
  ⟨fun c c' : ToyCtx => c.acc = c'.acc, toyEngine_bisim _, fun _ _ => rfl⟩

/-! ## Instances of the claims on concrete inputs -/

theorem xevan_hash_header_length_witness :
    xevan_digest toyEngines toyBase toyInput toyState 0 =
      xevan_digest toyEngines toyBase (fun i => if i < 80 then toyInput i else 1) toyState 0 :=
  (xevan_hash_header_length toyEngines toyBase toyState 0).2.2.1 _ _ (by decide)
    (by intro i hi; simp [hi])

theorem xevan_hash_output_witness :
    (32 : Nat) ≤ 40 ∧
    (xevan_hash toyEngines toyBase toyInput toyState 0).state 40 = toyState 40 := by
  obtain ⟨_, _, -, -, -, -, -, h⟩ := xevan_hash_output toyEngines toyBase toyInput toyState 0
  exact ⟨by decide, h 40 (by decide)⟩

theorem xevan_hash_refines_chain_witness :
    (∀ e, (toyEngines e).ClosesTo (freshContexts toyEngines toyBase e)) ∧
    xevan_digest toyEngines toyBase toyInput toyState 4 =
      (Chain toyEngines (freshContexts toyEngines toyBase)
        ((Chain toyEngines (freshContexts toyEngines toyBase)
            (readBytes toyInput (if (4 : Int) = 4 then 112 else 80))).take 32 ++
          List.replicate 96 0)).take 32 :=
  ⟨toyEngines_closesTo toyBase,
    (xevan_hash_refines_chain toyEngines toyBase toyInput toyState 4
      (toyEngines_closesTo toyBase)).2⟩

theorem xevan_hash_frame_witness :
    EngineId.sha512 ≠ EngineId.haval1 ∧ digestBytes .sha512 = 64 :=
  ⟨by decide,
    (xevan_hash_frame toyEngines toyBase toyInput toyState 0).2.1 .sha512 (by decide)⟩

theorem xevan_hash_deterministic_witness :
    xevan_digest toyEngines toyBase toyInput toyState 0 =
      xevan_digest toyEngines (fun _ => { acc := 99, last := 5 })
        (fun i => if i < 80 then toyInput i else 1) (fun _ => 255) 0 :=
  xevan_hash_deterministic toyEngines toyEngines_initFresh _ _ _ _ _ _ 0
    (by intro i hi; simp at hi; simp [hi])

theorem xevan_hash_unchecked_witness :
    [1, 2, 3].length ≤ (if (0 : Int) = 4 then 112 else 80) ∧
    readBytes (bufMem [1, 2, 3] toyInput) (if (0 : Int) = 4 then 112 else 80) =
      [1, 2, 3] ++ readBytes toyInput ((if (0 : Int) = 4 then 112 else 80) - [1, 2, 3].length) :=
  ⟨by decide,
    (xevan_hash_unchecked toyEngines toyBase [1, 2, 3] [] toyInput toyState 0).2.1
      (by decide)⟩

/-! ## Where the text of a claim and the code part -/

/-- C9 (as stated) fails: called with a 3-byte input buffer and an empty output
buffer, the function is not stopped; it makes all 85 engine calls and the byte
at the output pointer, which was 0, is overwritten. -/
theorem xevan_hash_short_buffers_not_rejected :
    [1, 2, 3].length < 80 ∧ ([] : List Nat).length < 32 ∧
    (xevan_hash toyEngines toyBase (bufMem [1, 2, 3] toyState) (bufMem [] toyState) 0).log.length
      = 85 ∧
    bufMem [] toyState 0 = 0 ∧
    (xevan_hash toyEngines toyBase (bufMem [1, 2, 3] toyState) (bufMem [] toyState) 0).state 0
      = 13 := by
  refine ⟨by decide, by decide, by decide, by decide, by decide!⟩

/-- C10 (as stated) fails: the first pass closes seventeen engines, not
sixteen, and the holder has seventeen fields. -/
theorem xevan_hash_not_sixteen_stages :
    ((xevan_pass1 toyEngines toyInput 0
      (xevan_setup toyEngines toyBase toyState)).log.filter Call.isClose).length = 17 ∧
    ((xevan_pass1 toyEngines toyInput 0
      (xevan_setup toyEngines toyBase toyState)).log.filter Call.isClose).length ≠ 16 ∧
    Fintype.card EngineId ≠ 16 := by
  refine ⟨by decide, by decide, by decide⟩

/-! # SHA-384 / SHA-512: the compression function, the constants, the contexts -/

theorem SPH_T64_lt (x : Nat) : SPH_T64 x < 2 ^ 64 := Nat.mod_lt _ (by norm_num)

theorem SPH_T64_of_lt {x : Nat} (h : x < 2 ^ 64) : SPH_T64 x = x := Nat.mod_eq_of_lt h

theorem MAJ_eq_fipsMaj (x y z : Nat) : MAJ x y z = fipsMaj x y z := by
  apply Nat.eq_of_testBit_eq
  intro i
  simp only [MAJ, fipsMaj, Nat.testBit_or, Nat.testBit_and, Nat.testBit_xor]
  cases x.testBit i <;> cases y.testBit i <;> cases z.testBit i <;> rfl

theorem CH_eq_fipsCh {x z : Nat} (y : Nat) (hx : x < 2 ^ 64) (hz : z < 2 ^ 64) :
    CH x y z = fipsCh x y z := by
  apply Nat.eq_of_testBit_eq
  intro i
  simp only [CH, fipsCh, Nat.testBit_or, Nat.testBit_and, Nat.testBit_xor,
    Nat.testBit_two_pow_sub_one]
  by_cases hi : i < 64
  · simp only [hi, decide_True]
    cases x.testBit i <;> cases y.testBit i <;> cases z.testBit i <;> rfl
  · have h64 : 2 ^ 64 ≤ 2 ^ i := Nat.pow_le_pow_right (by norm_num) (by omega)
    have hxi : x.testBit i = false := Nat.testBit_lt_two_pow (lt_of_lt_of_le hx h64)
    have hzi : z.testBit i = false := Nat.testBit_lt_two_pow (lt_of_lt_of_le hz h64)
    simp [hxi, hzi]

theorem ROTR64_eq_rotr64 (x n : Nat) (hn : n ≤ 64) : ROTR64 x n = rotr64 n x := by
  unfold ROTR64 SPH_ROTR64 SPH_ROTL64 SPH_T64 rotr64
  rw [Nat.sub_sub_self hn, Nat.lor_comm]

theorem BSG5_0_eq (x : Nat) : BSG5_0 x = bigSigma0 x := by
  simp only [BSG5_0, bigSigma0, ROTR64_eq_rotr64 x _ (by norm_num : (28:Nat) ≤ 64),
    ROTR64_eq_rotr64 x _ (by norm_num : (34:Nat) ≤ 64),
    ROTR64_eq_rotr64 x _ (by norm_num : (39:Nat) ≤ 64)]

theorem BSG5_1_eq (x : Nat) : BSG5_1 x = bigSigma1 x := by
  simp only [BSG5_1, bigSigma1, ROTR64_eq_rotr64 x _ (by norm_num : (14:Nat) ≤ 64),
    ROTR64_eq_rotr64 x _ (by norm_num : (18:Nat) ≤ 64),
    ROTR64_eq_rotr64 x _ (by norm_num : (41:Nat) ≤ 64)]

theorem shiftRight_lt_of_lt {x : Nat} (n : Nat) (h : x < 2 ^ 64) : x >>> n < 2 ^ 64 := by
  rw [Nat.shiftRight_eq_div_pow]
  exact lt_of_le_of_lt (Nat.div_le_self _ _) h

theorem SSG5_0_eq {x : Nat} (h : x < 2 ^ 64) : SSG5_0 x = smallSigma0 x := by
  simp only [SSG5_0, smallSigma0, shr64, ROTR64_eq_rotr64 x _ (by norm_num : (1:Nat) ≤ 64),
    ROTR64_eq_rotr64 x _ (by norm_num : (8:Nat) ≤ 64),
    SPH_T64_of_lt (shiftRight_lt_of_lt 7 h)]

theorem SSG5_1_eq {x : Nat} (h : x < 2 ^ 64) : SSG5_1 x = smallSigma1 x := by
  simp only [SSG5_1, smallSigma1, shr64, ROTR64_eq_rotr64 x _ (by norm_num : (19:Nat) ≤ 64),
    ROTR64_eq_rotr64 x _ (by norm_num : (61:Nat) ≤ 64),
    SPH_T64_of_lt (shiftRight_lt_of_lt 6 h)]


/-! ## The message schedule -/

theorem fipsW_lt (msg : Nat → Nat) (hmsg : ∀ i, i < 16 → msg i < 2 ^ 64) (t : Nat) :
    fipsW msg t < 2 ^ 64 := by
  rw [fipsW]
  split
  · exact hmsg t (by assumption)
  · exact Nat.mod_lt _ (by norm_num)

theorem fipsW_of_lt (msg : Nat → Nat) {t : Nat} (h : t < 16) : fipsW msg t = msg t := by
  rw [fipsW, if_pos h]

theorem fipsW_of_ge (msg : Nat → Nat) {t : Nat} (h : 16 ≤ t) :
    fipsW msg t =
      (smallSigma1 (fipsW msg (t - 2)) + fipsW msg (t - 7)
        + smallSigma0 (fipsW msg (t - 15)) + fipsW msg (t - 16)) % 2 ^ 64 := by
  rw [fipsW, if_neg (by omega)]

theorem SHA3_W_fold (msg : Nat → Nat) (hmsg : ∀ i, i < 16 → msg i < 2 ^ 64) (n : Nat) :
    ∀ (a : Nat) (W : List Nat), W.length = a → 16 ≤ a →
      (∀ t, t < a → W.getD t 0 = fipsW msg t) →
      ((List.range' a n).foldl
        (fun W i => W ++ [SPH_T64 (SSG5_1 (W.getD (i - 2) 0) + W.getD (i - 7) 0
          + SSG5_0 (W.getD (i - 15) 0) + W.getD (i - 16) 0)]) W).length = a + n ∧
      ∀ t, t < a + n →
        ((List.range' a n).foldl
          (fun W i => W ++ [SPH_T64 (SSG5_1 (W.getD (i - 2) 0) + W.getD (i - 7) 0
            + SSG5_0 (W.getD (i - 15) 0) + W.getD (i - 16) 0)]) W).getD t 0 = fipsW msg t := by
  induction n with
  | zero =>
    intro a W hlen _ hW
    exact ⟨by simpa using hlen, by simpa using hW⟩
  | succ n ih =>
    intro a W hlen ha hW
    rw [List.range'_succ, List.foldl_cons]
    have hnew : SPH_T64 (SSG5_1 (W.getD (a - 2) 0) + W.getD (a - 7) 0
        + SSG5_0 (W.getD (a - 15) 0) + W.getD (a - 16) 0) = fipsW msg a := by
      rw [hW _ (by omega), hW _ (by omega), hW _ (by omega), hW _ (by omega),
        SSG5_1_eq (fipsW_lt msg hmsg _), SSG5_0_eq (fipsW_lt msg hmsg _), fipsW_of_ge msg ha]
      rfl
    have h := ih (a + 1) (W ++ [SPH_T64 (SSG5_1 (W.getD (a - 2) 0) + W.getD (a - 7) 0
        + SSG5_0 (W.getD (a - 15) 0) + W.getD (a - 16) 0)])
      (by simp [hlen]) (by omega)
      (by
        intro t ht
        by_cases hta : t < a
        · rw [List.getD_append _ _ _ _ (by omega)]
          exact hW t hta
        · have : t = a := by omega
          subst this
          rw [List.getD_append_right _ _ _ _ (by omega), hlen, Nat.sub_self]
          exact hnew)
    rw [show a + 1 + n = a + (n + 1) by omega] at h
    exact h

theorem SHA3_W_spec (msg : Nat → Nat) (hmsg : ∀ i, i < 16 → msg i < 2 ^ 64) :
    ∀ t, t < 80 → (SHA3_W msg).getD t 0 = fipsW msg t := by
  have h := (SHA3_W_fold msg hmsg 64 16 ((List.range 16).map msg) (by simp) (le_refl _)
    (by
      intro t ht
      rw [List.getD_eq_getElem _ _ (by simpa using ht)]
      simp [fipsW_of_lt msg ht])).2
  exact h

/-! ## The unrolled loop and the textbook rounds -/

theorem fipsStep_bounded (Wf : Nat → Nat) (s : Regs) (t : Nat) (h : s.Bounded) :
    (fipsStep Wf s t).Bounded := by
  obtain ⟨hA, hB, hC, hD, hE, hF, hG, hH⟩ := h
  exact ⟨Nat.mod_lt _ (by norm_num), hA, hB, hC, Nat.mod_lt _ (by norm_num), hE, hF, hG⟩

/-- One `SHA3_STEP` computes the new `e` and the new `a` of the textbook step
on the variables in the roles it is given. -/
theorem SHA3_STEP_eq (W : List Nat) (Wf : Nat → Nat) (a b c d e f g h t : Nat)
    (he : e < 2 ^ 64) (hg : g < 2 ^ 64) (hW : W.getD t 0 = Wf t) :
    SHA3_STEP W a b c d e f g h t =
      ((fipsStep Wf ⟨a, b, c, d, e, f, g, h⟩ t).E, (fipsStep Wf ⟨a, b, c, d, e, f, g, h⟩ t).A) := by
  simp only [SHA3_STEP, fipsStep, fipsT1, fipsT2, SPH_T64, BSG5_1_eq, BSG5_0_eq,
    MAJ_eq_fipsMaj, CH_eq_fipsCh _ he hg, hW]

theorem fipsStep_E_lt (Wf : Nat → Nat) (s : Regs) (t : Nat) : (fipsStep Wf s t).E < 2 ^ 64 :=
  Nat.mod_lt _ (by norm_num)

theorem fipsStep_A_lt (Wf : Nat → Nat) (s : Regs) (t : Nat) : (fipsStep Wf s t).A < 2 ^ 64 :=
  Nat.mod_lt _ (by norm_num)

/-- The eight steps of one iteration of the loop, with the variables renamed
from step to step, are eight textbook steps. -/
theorem SHA3_loop_body_eq (W : List Nat) (Wf : Nat → Nat) (s : Regs) (i : Nat)
    (hs : s.Bounded) (hW : ∀ j, j < 8 → W.getD (i + j) 0 = Wf (i + j)) :
    SHA3_loop_body W s i =
      fipsStep Wf (fipsStep Wf (fipsStep Wf (fipsStep Wf (fipsStep Wf (fipsStep Wf
        (fipsStep Wf (fipsStep Wf s (i + 0)) (i + 1)) (i + 2)) (i + 3)) (i + 4)) (i + 5))
        (i + 6)) (i + 7) := by
  obtain ⟨a, b, c, d, e, f, g, h⟩ := s
  obtain ⟨hA, hB, hC, hD, hE, hF, hG, hH⟩ := hs
  simp only at hA hB hC hD hE hF hG hH
  simp only [SHA3_loop_body]
  rw [SHA3_STEP_eq W Wf a b c d e f g h (i + 0) hE hG (hW 0 (by norm_num))]
  simp only []
  rw [SHA3_STEP_eq W Wf _ a b c _ e f g (i + 1) (fipsStep_E_lt _ _ _) hF (hW 1 (by norm_num))]
  simp only []
  rw [SHA3_STEP_eq W Wf _ _ a b _ _ e f (i + 2) (fipsStep_E_lt _ _ _) hE (hW 2 (by norm_num))]
  simp only []
  rw [SHA3_STEP_eq W Wf _ _ _ a _ _ _ e (i + 3) (fipsStep_E_lt _ _ _) (fipsStep_E_lt _ _ _)
    (hW 3 (by norm_num))]
  simp only []
  rw [SHA3_STEP_eq W Wf _ _ _ _ _ _ _ _ (i + 4) (fipsStep_E_lt _ _ _) (fipsStep_E_lt _ _ _)
    (hW 4 (by norm_num))]
  simp only []
  rw [SHA3_STEP_eq W Wf _ _ _ _ _ _ _ _ (i + 5) (fipsStep_E_lt _ _ _) (fipsStep_E_lt _ _ _)
    (hW 5 (by norm_num))]
  simp only []
  rw [SHA3_STEP_eq W Wf _ _ _ _ _ _ _ _ (i + 6) (fipsStep_E_lt _ _ _) (fipsStep_E_lt _ _ _)
    (hW 6 (by norm_num))]
  simp only []
  rw [SHA3_STEP_eq W Wf _ _ _ _ _ _ _ _ (i + 7) (fipsStep_E_lt _ _ _) (fipsStep_E_lt _ _ _)
    (hW 7 (by norm_num))]
  rfl

theorem foldl_congr_inv (P : Regs → Prop) (g h : Regs → Nat → Regs) (l : List Nat)
    (hgh : ∀ s i, i ∈ l → P s → g s i = h s i)
    (hP : ∀ s i, i ∈ l → P s → P (h s i)) (s0 : Regs) (h0 : P s0) :
    l.foldl g s0 = l.foldl h s0 := by
  induction l generalizing s0 with
  | nil => rfl
  | cons i l ih =>
    rw [List.foldl_cons, List.foldl_cons, hgh s0 i (List.mem_cons_self _ _) h0]
    exact ih (fun s j hj => hgh s j (List.mem_cons_of_mem _ hj))
      (fun s j hj => hP s j (List.mem_cons_of_mem _ hj)) _
      (hP s0 i (List.mem_cons_self _ _) h0)

/-- Eighty steps taken one by one are ten groups of eight. -/
theorem foldl_range_eighty (f : Regs → Nat → Regs) (s0 : Regs) :
    (List.range 80).foldl f s0 =
      (List.range' 0 10 8).foldl
        (fun s i => f (f (f (f (f (f (f (f s (i + 0)) (i + 1)) (i + 2)) (i + 3)) (i + 4))
          (i + 5)) (i + 6)) (i + 7)) s0 := rfl

/-- The loop of `SHA3_ROUND_BODY` is the eighty rounds of the specification. -/
theorem SHA3_loop_eq (W : List Nat) (Wf : Nat → Nat) (s0 : Regs) (hs : s0.Bounded)
    (hW : ∀ t, t < 80 → W.getD t 0 = Wf t) :
    (List.range' 0 10 8).foldl (fun s i => SHA3_loop_body W s i) s0 =
      (List.range 80).foldl (fun s t => fipsStep Wf s t) s0 := by
  rw [foldl_range_eighty]
  apply foldl_congr_inv Regs.Bounded
  · intro s i hi hb
    obtain ⟨k, hk, rfl⟩ := List.mem_range'.1 hi
    exact SHA3_loop_body_eq W Wf s _ hb (fun j hj => hW _ (by omega))
  · intro s i _ hb
    exact fipsStep_bounded _ _ _ (fipsStep_bounded _ _ _ (fipsStep_bounded _ _ _
      (fipsStep_bounded _ _ _ (fipsStep_bounded _ _ _ (fipsStep_bounded _ _ _
      (fipsStep_bounded _ _ _ (fipsStep_bounded _ _ _ hb)))))))
  · exact hs

theorem list_length_eight (l : List Nat) (h : l.length = 8) :
    ∃ a b c d e f g k, l = [a, b, c, d, e, f, g, k] := by
  match l, h with
  | [a, b, c, d, e, f, g, k], _ => exact ⟨a, b, c, d, e, f, g, k, rfl⟩

theorem SHA3_ROUND_BODY_eq_fips (inp : Nat → Nat) (val : List Nat) (hlen : val.length = 8)
    (hinp : ∀ i, i < 16 → inp i < 2 ^ 64) (hval : ∀ w, w ∈ val → w < 2 ^ 64) :
    SHA3_ROUND_BODY inp val = fips_compress inp val := by
  obtain ⟨a, b, c, d, e, f, g, k, rfl⟩ := list_length_eight val hlen
  have hb : Regs.Bounded ⟨a, b, c, d, e, f, g, k⟩ := by
    refine ⟨hval a ?_, hval b ?_, hval c ?_, hval d ?_, hval e ?_, hval f ?_, hval g ?_,
      hval k ?_⟩ <;> simp
  have hloop := SHA3_loop_eq (SHA3_W inp) (fipsW inp) ⟨a, b, c, d, e, f, g, k⟩ hb
    (SHA3_W_spec inp hinp)
  simp only [SHA3_ROUND_BODY, fips_compress, List.getD_cons_zero, List.getD_cons_succ,
    List.set_cons_zero, List.set_cons_succ, SPH_T64]
  rw [hloop]

/-- C11: on a block of sixteen 64-bit words and a chaining value of eight
64-bit words, `sph_sha384_comp` (also reachable as `sph_sha512_comp`) returns
what the SHA-512 compression function of FIPS 180-4 returns: the schedule
`W[t] = msg[t]`, then `sigma1(W[t-2]) + W[t-7] + sigma0(W[t-15]) + W[t-16]`,
eighty textbook rounds, and the word-wise addition to `val`, all modulo
`2 ^ 64`.  In particular the loop of ten iterations of eight steps with renamed
variables gives the working variables of eighty one-step rounds. -/
theorem sph_sha384_comp_eq_fips (msg : Nat → Nat) (val : List Nat) (hlen : val.length = 8)
    (hmsg : ∀ i, i < 16 → msg i < 2 ^ 64) (hval : ∀ w, w ∈ val → w < 2 ^ 64) :
    sph_sha384_comp msg val = fips_compress msg val ∧
    sph_sha512_comp msg val = fips_compress msg val ∧
    (List.range' 0 10 8).foldl (fun s i => SHA3_loop_body (SHA3_W msg) s i)
        ⟨val.getD 0 0, val.getD 1 0, val.getD 2 0, val.getD 3 0,
          val.getD 4 0, val.getD 5 0, val.getD 6 0, val.getD 7 0⟩ =
      (List.range 80).foldl (fun s t => fipsStep (fipsW msg) s t)
        ⟨val.getD 0 0, val.getD 1 0, val.getD 2 0, val.getD 3 0,
          val.getD 4 0, val.getD 5 0, val.getD 6 0, val.getD 7 0⟩ := by
  refine ⟨SHA3_ROUND_BODY_eq_fips msg val hlen hmsg hval,
    SHA3_ROUND_BODY_eq_fips msg val hlen hmsg hval, ?_⟩
  obtain ⟨a, b, c, d, e, f, g, k, rfl⟩ := list_length_eight val hlen
  refine SHA3_loop_eq _ _ _ ?_ (SHA3_W_spec msg hmsg)
  refine ⟨hval a ?_, hval b ?_, hval c ?_, hval d ?_, hval e ?_, hval f ?_, hval g ?_,
    hval k ?_⟩ <;> simp

theorem emptyBlock_lt (i : Nat) : emptyBlock i < 2 ^ 64 := by
  unfold emptyBlock
  split <;> norm_num

theorem sph_sha384_comp_eq_fips_witness :
    H512.length = 8 ∧ (∀ w, w ∈ H512 → w < 2 ^ 64) ∧
    sph_sha384_comp emptyBlock H512 = fips_compress emptyBlock H512 :=
  ⟨rfl, by decide,
    (sph_sha384_comp_eq_fips emptyBlock H512 rfl (fun i _ => emptyBlock_lt i) (by decide)).1⟩

/-- C12: applied to the padded block of the empty message and the initial
value `H512`, the compression function gives the eight words of the published
SHA-512 digest of the empty message, the first being `cf83e1357eefb8bd`; written
most significant byte first they are the 64 bytes of the standard digest. -/
theorem sph_sha384_comp_empty_message :
    (List.range 16).map emptyBlock =
      [0x8000000000000000, 0, 0, 0, 0, 0, 0, 0, 0, 0, 0, 0, 0, 0, 0, 0] ∧
    (sph_sha384_comp emptyBlock H512).getD 0 0 = 0xCF83E1357EEFB8BD ∧
    sph_sha384_comp emptyBlock H512 =
      [0xCF83E1357EEFB8BD, 0xF1542850D66D8007, 0xD620E4050B5715DC, 0x83F4A921D36CE9CE,
       0x47D0D13C5D85F2B0, 0xFF8318D2877EEC2F, 0x63B931BD47417A81, 0xA538327AF927DA3E] ∧
    (sph_sha384_comp emptyBlock H512).flatMap sph_enc64be =
      [0xcf, 0x83, 0xe1, 0x35, 0x7e, 0xef, 0xb8, 0xbd, 0xf1, 0x54, 0x28, 0x50, 0xd6, 0x6d,
       0x80, 0x07, 0xd6, 0x20, 0xe4, 0x05, 0x0b, 0x57, 0x15, 0xdc, 0x83, 0xf4, 0xa9, 0x21,
       0xd3, 0x6c, 0xe9, 0xce, 0x47, 0xd0, 0xd1, 0x3c, 0x5d, 0x85, 0xf2, 0xb0, 0xff, 0x83,
       0x18, 0xd2, 0x87, 0x7e, 0xec, 0x2f, 0x63, 0xb9, 0x31, 0xbd, 0x47, 0x41, 0x7a, 0x81,
       0xa5, 0x38, 0x32, 0x7a, 0xf9, 0x27, 0xda, 0x3e] := by
  refine ⟨by decide, by decide!, by decide!, by decide!⟩


/-! ## Initialisation and termination of the SHA-384 / SHA-512 contexts -/

/-- C13: `sph_sha512_init` produces a fresh, deterministic initial state:
whatever the context held before, it leaves `val` equal to the eight words of
`H512` and `count` equal to 0, the same after every init, and `sph_sha384_init`
does the same with `H384`.  The init has no effect other than populating that
state: `buf`, whose bytes are not in use when `count` is 0, is left as it
was. -/
theorem sph_sha512_init_state (sc sc' : sph_sha384_context) :
    (sph_sha512_init sc).val = H512 ∧ (sph_sha512_init sc).count = 0 ∧
    (sph_sha512_init sc).buf = sc.buf ∧
    (sph_sha384_init sc).val = H384 ∧ (sph_sha384_init sc).count = 0 ∧
    (sph_sha384_init sc).buf = sc.buf ∧
    (sph_sha512_init sc).val = (sph_sha512_init sc').val ∧
    (sph_sha512_init sc).count = (sph_sha512_init sc').count ∧
    (sph_sha384_init sc).val = (sph_sha384_init sc').val ∧
    (sph_sha384_init sc).count = (sph_sha384_init sc').count ∧
    H512.length = 8 ∧ H384.length = 8 :=
  ⟨rfl, rfl, rfl, rfl, rfl, rfl, rfl, rfl, rfl, rfl, rfl, rfl⟩

/-- C14: whatever the context and the destination, and for every `ub` and `n`,
after `sph_sha512_close` and after `sph_sha512_addbits_and_close` the context has
`val = H512` and `count = 0`, and after `sph_sha384_close` and
`sph_sha384_addbits_and_close` it has `val = H384` and `count = 0`: the values
`sph_sha512_init` and `sph_sha384_init` set. -/
theorem sph_sha512_close_reinit (sc sc' : sph_sha384_context) (dst : Mem) (ub n : Nat) :
    (sph_sha512_close sc dst).1.val = H512 ∧ (sph_sha512_close sc dst).1.count = 0 ∧
    (sph_sha512_addbits_and_close sc ub n dst).1.val = H512 ∧
    (sph_sha512_addbits_and_close sc ub n dst).1.count = 0 ∧
    (sph_sha384_close sc dst).1.val = H384 ∧ (sph_sha384_close sc dst).1.count = 0 ∧
    (sph_sha384_addbits_and_close sc ub n dst).1.val = H384 ∧
    (sph_sha384_addbits_and_close sc ub n dst).1.count = 0 ∧
    (sph_sha512_init sc').val = H512 ∧ (sph_sha512_init sc').count = 0 ∧
    (sph_sha384_init sc').val = H384 ∧ (sph_sha384_init sc').count = 0 :=
  ⟨rfl, rfl, rfl, rfl, rfl, rfl, rfl, rfl, rfl, rfl, rfl, rfl⟩

/-- C18: on every 128-byte block `data` and every `r`, the byte-level round
function gives what the word-level compression function gives on the sixteen
words decoded from `data`, word `x` being the big-endian value of the bytes
`data[8x .. 8x+7]`. -/
theorem sha3_round_eq_comp (data : Mem) (r : List Nat) :
    sha3_round data r =
      sph_sha384_comp
        (fun x => data (8 * x) * 256 ^ 7 + data (8 * x + 1) * 256 ^ 6
          + data (8 * x + 2) * 256 ^ 5 + data (8 * x + 3) * 256 ^ 4
          + data (8 * x + 4) * 256 ^ 3 + data (8 * x + 5) * 256 ^ 2
          + data (8 * x + 6) * 256 + data (8 * x + 7)) r := by
  unfold sha3_round sph_sha384_comp sph_dec64be_aligned
  norm_num


/-! ## The constants and the roots of the primes -/

theorem primeB_iff (n : Nat) : primeB n = true ↔ Nat.Prime n := by
  unfold primeB
  rw [Bool.and_eq_true, decide_eq_true_iff, List.all_eq_true, Nat.prime_def_lt]
  constructor
  · rintro ⟨h2, h⟩
    refine ⟨h2, fun m hm hdvd => ?_⟩
    have := h m (List.mem_range.2 hm)
    rw [Bool.or_eq_true, decide_eq_true_iff, decide_eq_true_iff] at this
    rcases this with h1 | h1
    · rcases Nat.lt_or_ge m 1 with h0 | h0
      · have hm0 : m = 0 := by omega
        subst hm0
        have := Nat.eq_zero_of_zero_dvd hdvd
        omega
      · omega
    · exact absurd (Nat.mod_eq_zero_of_dvd hdvd) h1
  · rintro ⟨h2, h⟩
    refine ⟨h2, fun m hm => ?_⟩
    rw [Bool.or_eq_true, decide_eq_true_iff, decide_eq_true_iff]
    by_cases hm2 : m < 2
    · exact Or.inl hm2
    · right
      intro hmod
      have := h m (List.mem_range.1 hm) (Nat.dvd_of_mod_eq_zero hmod)
      omega

theorem count_prime_eq (n : Nat) :
    Nat.count Nat.Prime n = ((List.range n).filter primeB).length := by
  induction n with
  | zero => rfl
  | succ n ih =>
    rw [Nat.count_succ, List.range_succ, List.filter_append, List.length_append, ih]
    by_cases hp : Nat.Prime n
    · have hb : primeB n = true := (primeB_iff n).2 hp
      simp [hp, hb]
    · have hb : primeB n = false := by
        rw [← Bool.not_eq_true, primeB_iff]; exact hp
      simp [hp, hb]

theorem range_filter_lt (N q : Nat) (h : q ≤ N) :
    (List.range N).filter (fun n => decide (n < q)) = List.range q := by
  induction N with
  | zero =>
    have : q = 0 := by omega
    subst this; rfl
  | succ N ih =>
    rw [List.range_succ, List.filter_append]
    rcases Nat.lt_or_ge N q with hq | hq
    · have hqe : q = N + 1 := by omega
      subst hqe
      rw [List.range_succ]
      congr 1
      · apply List.filter_eq_self.2
        intro a ha
        have := List.mem_range.1 ha
        simp; omega
      · simp
    · rw [ih hq]
      simp; omega

theorem primesBelow410_eq :
    primesBelow410 =
      [2, 3, 5, 7, 11, 13, 17, 19, 23, 29, 31, 37, 41, 43, 47, 53, 59, 61, 67, 71,
       73, 79, 83, 89, 97, 101, 103, 107, 109, 113, 127, 131, 137, 139, 149, 151, 157,
       163, 167, 173, 179, 181, 191, 193, 197, 199, 211, 223, 227, 229, 233, 239, 241,
       251, 257, 263, 269, 271, 277, 281, 283, 293, 307, 311, 313, 317, 331, 337, 347,
       349, 353, 359, 367, 373, 379, 383, 389, 397, 401, 409] := by
  decide!

theorem primesBelow410_index :
    ∀ i, i < 80 →
      (primesBelow410.filter (fun n => decide (n < primesBelow410.getD i 0))).length = i := by
  rw [primesBelow410_eq]
  decide!

/-- The primes below 410, in order, are the first eighty primes. -/
theorem nth_prime_eq (i : Nat) (hi : i < 80) :
    Nat.nth Nat.Prime i = primesBelow410.getD i 0 := by
  have hmem : primesBelow410.getD i 0 ∈ primesBelow410 := by
    rw [List.getD_eq_getElem _ _ (by rw [primesBelow410_eq]; exact hi)]
    exact List.getElem_mem _
  have hfacts := List.mem_filter.1 hmem
  have hprime : Nat.Prime (primesBelow410.getD i 0) := (primeB_iff _).1 hfacts.2
  have hlt : primesBelow410.getD i 0 ≤ 410 := le_of_lt (List.mem_range.1 hfacts.1)
  have hcount : Nat.count Nat.Prime (primesBelow410.getD i 0) = i := by
    rw [count_prime_eq, ← range_filter_lt 410 _ hlt, List.filter_comm]
    exact primesBelow410_index i hi
  have h := Nat.nth_count hprime
  rw [hcount] at h
  exact h


theorem root_digits_unique (r : Nat) (N p k K : Nat)
    (h1 : (N + K) ^ r ≤ p) (h2 : p < (N + K + 1) ^ r)
    (h3 : (N + k) ^ r ≤ p) (h4 : p < (N + k + 1) ^ r) : k = K := by
  rcases Nat.lt_trichotomy k K with h | h | h
  · have : (N + k + 1) ^ r ≤ (N + K) ^ r := Nat.pow_le_pow_left (by omega) r
    omega
  · exact h
  · have : (N + K + 1) ^ r ≤ (N + k) ^ r := Nat.pow_le_pow_left (by omega) r
    omega

theorem K512_roots_computed :
    ∀ i, i < 80 → ∃ n, n < 8 ∧
      n ^ 3 ≤ primesBelow410.getD i 0 ∧ primesBelow410.getD i 0 < (n + 1) ^ 3 ∧
      K512.getD i 0 < 2 ^ 64 ∧
      (n * 2 ^ 64 + K512.getD i 0) ^ 3 ≤ primesBelow410.getD i 0 * 2 ^ 192 ∧
      primesBelow410.getD i 0 * 2 ^ 192 < (n * 2 ^ 64 + K512.getD i 0 + 1) ^ 3 := by
  rw [primesBelow410_eq]
  decide!

theorem H512_roots_computed :
    ∀ j, j < 8 → ∃ n, n < 8 ∧
      n ^ 2 ≤ primesBelow410.getD j 0 ∧ primesBelow410.getD j 0 < (n + 1) ^ 2 ∧
      H512.getD j 0 < 2 ^ 64 ∧
      (n * 2 ^ 64 + H512.getD j 0) ^ 2 ≤ primesBelow410.getD j 0 * 2 ^ 128 ∧
      primesBelow410.getD j 0 * 2 ^ 128 < (n * 2 ^ 64 + H512.getD j 0 + 1) ^ 2 := by
  rw [primesBelow410_eq]
  decide!

theorem H384_roots_computed :
    ∀ j, j < 8 → ∃ n, n < 8 ∧
      n ^ 2 ≤ primesBelow410.getD (j + 8) 0 ∧ primesBelow410.getD (j + 8) 0 < (n + 1) ^ 2 ∧
      H384.getD j 0 < 2 ^ 64 ∧
      (n * 2 ^ 64 + H384.getD j 0) ^ 2 ≤ primesBelow410.getD (j + 8) 0 * 2 ^ 128 ∧
      primesBelow410.getD (j + 8) 0 * 2 ^ 128 < (n * 2 ^ 64 + H384.getD j 0 + 1) ^ 2 := by
  rw [primesBelow410_eq]
  decide!

/-- C16: the table has eighty entries and, for every `i` below 80, with `p`
the `(i+1)`-th prime and `n` the integer part of its cube root, `K512[i]` is
the unique `k` below `2 ^ 64` with
`(n * 2^64 + k)^3 ≤ p * 2^192 < (n * 2^64 + k + 1)^3`: the first 64 bits of the
fractional part of the cube root of `p`. -/
theorem K512_cube_roots (i : Nat) (hi : i < 80) :
    K512.length = 80 ∧
    ∃ n, n ^ 3 ≤ Nat.nth Nat.Prime i ∧ Nat.nth Nat.Prime i < (n + 1) ^ 3 ∧
      K512.getD i 0 < 2 ^ 64 ∧
      (n * 2 ^ 64 + K512.getD i 0) ^ 3 ≤ Nat.nth Nat.Prime i * 2 ^ 192 ∧
      Nat.nth Nat.Prime i * 2 ^ 192 < (n * 2 ^ 64 + K512.getD i 0 + 1) ^ 3 ∧
      ∀ k, (n * 2 ^ 64 + k) ^ 3 ≤ Nat.nth Nat.Prime i * 2 ^ 192 →
        Nat.nth Nat.Prime i * 2 ^ 192 < (n * 2 ^ 64 + k + 1) ^ 3 → k = K512.getD i 0 := by
  refine ⟨rfl, ?_⟩
  rw [nth_prime_eq i hi]
  obtain ⟨n, -, h1, h2, h3, h4, h5⟩ := K512_roots_computed i hi
  exact ⟨n, h1, h2, h3, h4, h5, fun k hk1 hk2 => root_digits_unique 3 _ _ k _ h4 h5 hk1 hk2⟩

theorem K512_cube_roots_witness :
    (0 : Nat) < 80 ∧ Nat.nth Nat.Prime 0 = 2 ∧ K512.getD 0 0 = 0x428A2F98D728AE22 ∧
    ∃ n, n ^ 3 ≤ Nat.nth Nat.Prime 0 ∧ Nat.nth Nat.Prime 0 < (n + 1) ^ 3 ∧
      K512.getD 0 0 < 2 ^ 64 ∧
      (n * 2 ^ 64 + K512.getD 0 0) ^ 3 ≤ Nat.nth Nat.Prime 0 * 2 ^ 192 ∧
      Nat.nth Nat.Prime 0 * 2 ^ 192 < (n * 2 ^ 64 + K512.getD 0 0 + 1) ^ 3 ∧
      ∀ k, (n * 2 ^ 64 + k) ^ 3 ≤ Nat.nth Nat.Prime 0 * 2 ^ 192 →
        Nat.nth Nat.Prime 0 * 2 ^ 192 < (n * 2 ^ 64 + k + 1) ^ 3 → k = K512.getD 0 0 :=
  ⟨by decide, Nat.nth_prime_zero_eq_two, rfl, (K512_cube_roots 0 (by decide)).2⟩

/-- C17: for every `j` below 8, `H512[j]` is the first 64 bits of the fractional
part of the square root of the `(j+1)`-th prime and `H384[j]` that of the
`(j+9)`-th prime: with `p` the prime and `n` the integer part of its square
root, the entry is the unique `k` below `2 ^ 64` with
`(n * 2^64 + k)^2 ≤ p * 2^128 < (n * 2^64 + k + 1)^2`. -/
theorem H512_H384_square_roots (j : Nat) (hj : j < 8) :
    (∃ n, n ^ 2 ≤ Nat.nth Nat.Prime j ∧ Nat.nth Nat.Prime j < (n + 1) ^ 2 ∧
      H512.getD j 0 < 2 ^ 64 ∧
      (n * 2 ^ 64 + H512.getD j 0) ^ 2 ≤ Nat.nth Nat.Prime j * 2 ^ 128 ∧
      Nat.nth Nat.Prime j * 2 ^ 128 < (n * 2 ^ 64 + H512.getD j 0 + 1) ^ 2 ∧
      ∀ k, (n * 2 ^ 64 + k) ^ 2 ≤ Nat.nth Nat.Prime j * 2 ^ 128 →
        Nat.nth Nat.Prime j * 2 ^ 128 < (n * 2 ^ 64 + k + 1) ^ 2 → k = H512.getD j 0) ∧
    (∃ n, n ^ 2 ≤ Nat.nth Nat.Prime (j + 8) ∧ Nat.nth Nat.Prime (j + 8) < (n + 1) ^ 2 ∧
      H384.getD j 0 < 2 ^ 64 ∧
      (n * 2 ^ 64 + H384.getD j 0) ^ 2 ≤ Nat.nth Nat.Prime (j + 8) * 2 ^ 128 ∧
      Nat.nth Nat.Prime (j + 8) * 2 ^ 128 < (n * 2 ^ 64 + H384.getD j 0 + 1) ^ 2 ∧
      ∀ k, (n * 2 ^ 64 + k) ^ 2 ≤ Nat.nth Nat.Prime (j + 8) * 2 ^ 128 →
        Nat.nth Nat.Prime (j + 8) * 2 ^ 128 < (n * 2 ^ 64 + k + 1) ^ 2 →
        k = H384.getD j 0) ∧
    (List.range 16).map (Nat.nth Nat.Prime) =
      [2, 3, 5, 7, 11, 13, 17, 19, 23, 29, 31, 37, 41, 43, 47, 53] := by
  refine ⟨?_, ?_, ?_⟩
  · rw [nth_prime_eq j (by omega)]
    obtain ⟨n, -, h1, h2, h3, h4, h5⟩ := H512_roots_computed j hj
    exact ⟨n, h1, h2, h3, h4, h5, fun k hk1 hk2 => root_digits_unique 2 _ _ k _ h4 h5 hk1 hk2⟩
  · rw [nth_prime_eq (j + 8) (by omega)]
    obtain ⟨n, -, h1, h2, h3, h4, h5⟩ := H384_roots_computed j hj
    exact ⟨n, h1, h2, h3, h4, h5, fun k hk1 hk2 => root_digits_unique 2 _ _ k _ h4 h5 hk1 hk2⟩
  · apply List.ext_getElem
    · simp
    · intro i h1 h2
      have hi : i < 16 := by simpa using h1
      rw [List.getElem_map, List.getElem_range, nth_prime_eq i (by omega), primesBelow410_eq]
      interval_cases i <;> rfl

theorem H512_H384_square_roots_witness :
    (0 : Nat) < 8 ∧ H512.getD 0 0 = 0x6A09E667F3BCC908 ∧
    ∃ n, n ^ 2 ≤ Nat.nth Nat.Prime 0 ∧ Nat.nth Nat.Prime 0 < (n + 1) ^ 2 ∧
      H512.getD 0 0 < 2 ^ 64 ∧
      (n * 2 ^ 64 + H512.getD 0 0) ^ 2 ≤ Nat.nth Nat.Prime 0 * 2 ^ 128 ∧
      Nat.nth Nat.Prime 0 * 2 ^ 128 < (n * 2 ^ 64 + H512.getD 0 0 + 1) ^ 2 ∧
      ∀ k, (n * 2 ^ 64 + k) ^ 2 ≤ Nat.nth Nat.Prime 0 * 2 ^ 128 →
        Nat.nth Nat.Prime 0 * 2 ^ 128 < (n * 2 ^ 64 + k + 1) ^ 2 → k = H512.getD 0 0 :=
  ⟨by decide, rfl, (H512_H384_square_roots 0 (by decide)).1⟩


/-! ## Reuse of a SHA-512 context -/

/-- The round function reads the 128 bytes of the block and nothing else. -/
theorem sha3_round_congr (data data' : Mem) (r : List Nat)
    (h : ∀ i, i < 128 → data i = data' i) : sha3_round data r = sha3_round data' r := by
  have hmap : (List.range 16).map (fun x => sph_dec64be_aligned data (8 * x)) =
      (List.range 16).map (fun x => sph_dec64be_aligned data' (8 * x)) := by
    apply List.map_congr_left
    intro x hx
    have hx16 := List.mem_range.1 hx
    simp only [sph_dec64be_aligned]
    rw [h (8 * x) (by omega), h (8 * x + 1) (by omega), h (8 * x + 2) (by omega),
      h (8 * x + 3) (by omega), h (8 * x + 4) (by omega), h (8 * x + 5) (by omega),
      h (8 * x + 6) (by omega), h (8 * x + 7) (by omega)]
  have hW : SHA3_W (fun x => sph_dec64be_aligned data (8 * x)) =
      SHA3_W (fun x => sph_dec64be_aligned data' (8 * x)) := by
    unfold SHA3_W
    rw [hmap]
  unfold sha3_round SHA3_ROUND_BODY
  simp only [hW]

theorem SPH_T64_mod_128 (x : Nat) : SPH_T64 x % 128 = x % 128 := by
  unfold SPH_T64
  exact Nat.mod_mod_of_dvd x (by norm_num)

theorem sha384_absorb_byte_agree (c c' : sph_sha384_context) (b : Nat) (h : BufAgree c c') :
    BufAgree (sha384_absorb_byte c b) (sha384_absorb_byte c' b) := by
  obtain ⟨hval, hcount, hbuf⟩ := h
  have hupd : ∀ i, i < c.count % 128 + 1 →
      Function.update c.buf (c.count % 128) b i = Function.update c'.buf (c.count % 128) b i := by
    intro i hi
    by_cases hic : i = c.count % 128
    · subst hic; simp
    · rw [Function.update_noteq hic, Function.update_noteq hic]
      exact hbuf i (by omega)
  refine ⟨?_, ?_, ?_⟩
  · simp only [sha384_absorb_byte, ← hcount, ← hval]
    split
    · rename_i hfull
      exact sha3_round_congr _ _ _ (fun i hi => hupd i (by omega))
    · rfl
  · simp only [sha384_absorb_byte, hcount]
  · intro i hi
    simp only [sha384_absorb_byte, ← hcount] at hi ⊢
    rw [SPH_T64_mod_128] at hi
    apply hupd
    have := Nat.mod_lt c.count (by norm_num : 128 > 0)
    omega

theorem sph_sha384_agree (data : List Nat) (c c' : sph_sha384_context) (h : BufAgree c c') :
    BufAgree (sph_sha384 c data) (sph_sha384 c' data) := by
  induction data generalizing c c' with
  | nil => exact h
  | cons b data ih => exact ih _ _ (sha384_absorb_byte_agree c c' b h)

theorem sha384_addbits_and_close_agree (c c' : sph_sha384_context) (ub n : Nat) (dst : Mem)
    (rnum : Nat) (h : BufAgree c c') :
    (sha384_addbits_and_close c ub n dst rnum).2 =
      (sha384_addbits_and_close c' ub n dst rnum).2 := by
  obtain ⟨hval, hcount, hbuf⟩ := h
  have hcur := Nat.mod_lt c.count (by norm_num : 128 > 0)
  have hupd : ∀ i, i < c.count % 128 + 1 →
      Function.update c.buf (c.count % 128) (((ub &&& (2 ^ 32 - 0x80 >>> n)) ||| 0x80 >>> n) &&& 0xFF) i
        = Function.update c'.buf (c.count % 128)
            (((ub &&& (2 ^ 32 - 0x80 >>> n)) ||| 0x80 >>> n) &&& 0xFF) i := by
    intro i hi
    by_cases hic : i = c.count % 128
    · subst hic; simp
    · rw [Function.update_noteq hic, Function.update_noteq hic]
      exact hbuf i (by omega)
  have hlen : ∀ w, (sph_enc64be w).length = 8 := fun _ => rfl
  have hval2 : (sha384_addbits_and_close c ub n dst rnum).1.val =
      (sha384_addbits_and_close c' ub n dst rnum).1.val := by
    simp only [sha384_addbits_and_close, ← hcount, ← hval]
    by_cases hbig : c.count % 128 + 1 > 112
    · simp only [if_pos hbig]
      rw [sha3_round_congr (zeroBytes (Function.update c.buf _ _) _ _)
        (zeroBytes (Function.update c'.buf _ _) _ _) c.val]
      · apply sha3_round_congr
        intro i hi
        simp only [writeBytes, zeroBytes, hlen]
        split_ifs <;> first | rfl | omega
      · intro i hi
        simp only [zeroBytes]
        split_ifs
        · rfl
        · exact hupd i (by omega)
    · simp only [if_neg hbig]
      apply sha3_round_congr
      intro i hi
      simp only [writeBytes, zeroBytes, hlen]
      split_ifs <;> first | rfl | exact hupd i (by omega)
  have hdst : ∀ x : sph_sha384_context, (sha384_addbits_and_close x ub n dst rnum).2 =
      writeBytes dst 0 ((List.range rnum).flatMap
        (fun u => sph_enc64be ((sha384_addbits_and_close x ub n dst rnum).1.val.getD u 0))) :=
    fun _ => rfl
  rw [hdst c, hdst c', hval2]

theorem sph_sha512_close_val (c : sph_sha384_context) (dst : Mem) :
    (sph_sha512_close c dst).1.val = H512 := rfl

theorem sph_sha512_close_count (c : sph_sha384_context) (dst : Mem) :
    (sph_sha512_close c dst).1.count = 0 := rfl

theorem sph_sha512_init_agree (c c' : sph_sha384_context) :
    BufAgree (sph_sha512_init c) (sph_sha512_init c') :=
  ⟨rfl, rfl, fun i hi => absurd hi (Nat.not_lt_zero i)⟩

theorem sph_sha512_close_agree_init (c : sph_sha384_context) (dst : Mem)
    (c' : sph_sha384_context) :
    BufAgree (sph_sha512_close c dst).1 (sph_sha512_init c') := by
  refine ⟨sph_sha512_close_val c dst, sph_sha512_close_count c dst, ?_⟩
  intro i hi
  rw [sph_sha512_close_count] at hi
  exact absurd hi (Nat.not_lt_zero i)

/-- C15: a SHA-512 context that has been through a first computation (any
message `m1` absorbed, then closed) gives, when `m2` is absorbed into it and it
is closed again, the destination that `sph_sha512_init` on any context followed
by absorbing `m2` and closing gives; and replacing the bytes left in `buf` by
the first computation with any others changes nothing. -/
theorem sph_sha512_reuse (c sc' : sph_sha384_context) (m1 m2 : List Nat)
    (dst1 dst : Mem) (buf' : Mem) :
    (sph_sha512_close
        (sph_sha512 (sph_sha512_close (sph_sha512 c m1) dst1).1 m2) dst).2 =
      (sph_sha512_close (sph_sha512 (sph_sha512_init sc') m2) dst).2 ∧
    (sph_sha512_close
        (sph_sha512 { (sph_sha512_close (sph_sha512 c m1) dst1).1 with buf := buf' } m2)
        dst).2 =
      (sph_sha512_close
        (sph_sha512 (sph_sha512_close (sph_sha512 c m1) dst1).1 m2) dst).2 ∧
    readBytes (sph_sha512_close
        (sph_sha512 (sph_sha512_close (sph_sha512 c m1) dst1).1 m2) dst).2 64 =
      readBytes (sph_sha512_close (sph_sha512 (sph_sha512_init sc') m2) dst).2 64 := by
  have h1 : BufAgree (sph_sha512_close (sph_sha512 c m1) dst1).1 (sph_sha512_init sc') :=
    sph_sha512_close_agree_init _ _ _
  have h2 : BufAgree
      { (sph_sha512_close (sph_sha512 c m1) dst1).1 with buf := buf' }
      (sph_sha512_close (sph_sha512 c m1) dst1).1 := by
    generalize (sph_sha512_close (sph_sha512 c m1) dst1).1 = x at *
    refine ⟨rfl, rfl, fun i hi => ?_⟩
    exact absurd hi (by rw [h1.2.1]; exact Nat.not_lt_zero _)
  have key : ∀ x y : sph_sha384_context, BufAgree x y →
      (sph_sha512_close (sph_sha512 x m2) dst).2 = (sph_sha512_close (sph_sha512 y m2) dst).2 :=
    fun x y hxy => sha384_addbits_and_close_agree _ _ 0 0 dst 8 (sph_sha384_agree m2 x y hxy)
  exact ⟨key _ _ h1, key _ _ h2, by rw [key _ _ h1]⟩


theorem sha512Engine_close_agree (c c' : sph_sha384_context) :
    BufAgree (sha512Engine.close c).1 (sha512Engine.close c').1 := by
  refine ⟨?_, ?_, ?_⟩
  · exact (sph_sha512_close_val c _).trans (sph_sha512_close_val c' _).symm
  · exact (sph_sha512_close_count c _).trans (sph_sha512_close_count c' _).symm
  · intro i hi
    rw [show (sha512Engine.close c).1.count = 0 from sph_sha512_close_count c _] at hi
    exact absurd hi (Nat.not_lt_zero i)

theorem sha512Engine_bisim : sha512Engine.Bisim BufAgree where
  update := fun c c' data h => sph_sha384_agree data c c' h
  close_ctx := fun c c' _ => sha512Engine_close_agree c c'
  close_digest := by
    intro c c' h
    show readBytes (sph_sha512_close c _).2 64 = readBytes (sph_sha512_close c' _).2 64
    rw [show (sph_sha512_close c (fun _ => 0)).2 = (sph_sha512_close c' (fun _ => 0)).2 from
      sha384_addbits_and_close_agree c c' 0 0 _ 8 h]

/-- The SHA-512 engine of `Sha2.c` meets the contract "init produces a fresh
state": contexts behave the same after init although `buf` is not reset. -/
theorem sha512Engine_initFresh : sha512Engine.InitFresh :=
  ⟨BufAgree, sha512Engine_bisim, fun c c' => sph_sha512_init_agree c c'⟩

/-- The SHA-512 engine of `Sha2.c` meets the contract "close returns the
context to the initial state". -/
theorem sha512Engine_closesTo (sc : sph_sha384_context) :
    sha512Engine.ClosesTo (sph_sha512_init sc) :=
  ⟨BufAgree, sha512Engine_bisim, sph_sha512_init_agree sc sc,
    fun c => sph_sha512_close_agree_init c _ sc⟩

/-! ## The template, and the upper half of the scratch array -/

theorem initCalls_length : initCalls.length = 17 := rfl

theorem mem_initCalls (c : Call) (h : c ∈ initCalls) : ∃ e, c = Call.init e := by
  unfold initCalls at h
  obtain ⟨e, -, rfl⟩ := List.mem_map.1 h
  exact ⟨e, rfl⟩

theorem xevan_hash_base (base : Xhash_context_holder E) (input state : Mem) (version : Int) :
    (xevan_hash E base input state version).base_contexts = freshContexts E base := by
  rw [xevan_hash_eq, memcpy_state_base, runStages_base, memset_hash8_base, runStages_base,
    xevan_blake_first_base, xevan_setup_base]

/-- C19 (amended): every call of `xevan_hash`, also one made when the template
has been built before, starts by running the seventeen init functions on
`base_contexts`, each field being replaced by its init; the template is then
copied into the local contexts and is not written again, no other init call
being made, so that after the call it holds what was copied. -/
theorem xevan_hash_template (E : Engines) (base : Xhash_context_holder E)
    (input state : Mem) (version : Int) :
    (∃ rest, (xevan_hash E base input state version).log = initCalls ++ rest ∧
      ∀ e, Call.init e ∉ rest) ∧
    initCalls =
      [Call.init .blake1, Call.init .bmw1, Call.init .groestl1, Call.init .skein1,
       Call.init .jh1, Call.init .keccak1, Call.init .luffa1, Call.init .cubehash1,
       Call.init .shavite1, Call.init .simd1, Call.init .echo1, Call.init .hamsi1,
       Call.init .fugue1, Call.init .shabal1, Call.init .whirlpool1, Call.init .sha512,
       Call.init .haval1] ∧
    (∀ e, (xevan_setup E base state).base_contexts e = (E e).init (base e)) ∧
    (xevan_setup E base state).ctx = (xevan_setup E base state).base_contexts ∧
    (xevan_hash E base input state version).base_contexts =
      (xevan_setup E base state).base_contexts := by
  refine ⟨?_, rfl, ?_, ?_, ?_⟩
  · obtain ⟨evs1, evs2, hlog, -, -, -, f1, f2, -, -⟩ :=
      xevan_hash_log_after_blake base input state version
    rw [hlog, xevan_blake_log, List.append_assoc, List.append_assoc]
    refine ⟨_, rfl, ?_⟩
    intro e hmem
    simp only [List.cons_append, List.nil_append, List.mem_cons, List.mem_append] at hmem
    rcases hmem with h | h | h | h
    · exact Call.noConfusion h
    · exact Call.noConfusion h
    · exact f1 _ h
    · exact f2 _ h
  · intro e
    rw [xevan_setup_base]
    rfl
  · rw [xevan_setup_ctx, xevan_setup_base]
  · rw [xevan_hash_base, xevan_setup_base]

/-- C19 (as stated) fails: a second call, made on the template the first call
has built, runs the seventeen init functions on it again before anything
else. -/
theorem xevan_hash_reinit_every_call :
    (xevan_hash toyEngines (xevan_hash toyEngines toyBase toyInput toyState 0).base_contexts
      toyInput toyState 0).log.take 17 = initCalls ∧
    initCalls.length = 17 ∧ (∀ c, c ∈ initCalls → ∃ e, c = Call.init e) := by
  refine ⟨?_, rfl, mem_initCalls⟩
  obtain ⟨evs1, evs2, hlog, -⟩ := xevan_hash_log_after_blake
    (xevan_hash toyEngines toyBase toyInput toyState 0).base_contexts toyInput toyState 0
  rw [hlog, xevan_blake_log, List.append_assoc, List.append_assoc,
    ← initCalls_length, List.take_left]


theorem runStages_log_eq (es : List EngineId) (m : Machine E) :
    (runStages E es m).log = m.log ++ stageCalls E es m := by
  induction es generalizing m with
  | nil => simp [runStages_nil, stageCalls]
  | cons e es ih =>
    rw [runStages_cons, ih, stage_log, List.append_assoc]
    rfl

theorem stageCalls_length (es : List EngineId) (m : Machine E) :
    (stageCalls E es m).length = 2 * es.length := by
  induction es generalizing m with
  | nil => rfl
  | cons e es ih => simp [stageCalls, ih]; ring

theorem stageCalls_append (es fs : List EngineId) (m : Machine E) :
    stageCalls E (es ++ fs) m = stageCalls E es m ++ stageCalls E fs (runStages E es m) := by
  induction es generalizing m with
  | nil => rfl
  | cons e es ih =>
    rw [List.cons_append, stageCalls, stageCalls, ih, runStages_cons]
    rfl

theorem stage_zeroUpper (e : EngineId) (m : Machine E) (h : ZeroUpper m.hash) :
    ZeroUpper (stage E e m).hash := by
  refine ⟨stage_hash_length e m h.1, ?_⟩
  have hd := stageDigest_length e m
  have hle : digestBytes e ≤ 64 := by cases e <;> simp [digestBytes]
  rw [stage_hash, writeAt0, List.drop_append_eq_append_drop,
    List.drop_of_length_le (by omega), List.nil_append, List.drop_drop, hd,
    show digestBytes e + (64 - digestBytes e) = 64 by omega]
  exact h.2

theorem runStages_zeroUpper (es : List EngineId) (m : Machine E) (h : ZeroUpper m.hash) :
    ZeroUpper (runStages E es m).hash := by
  induction es generalizing m with
  | nil => exact h
  | cons e es ih => exact ih _ (stage_zeroUpper e m h)

/-- A stage of a 512-bit engine leaves its digest followed by 64 zero bytes. -/
theorem stage_hash_of_zeroUpper (e : EngineId) (m : Machine E) (h : ZeroUpper m.hash)
    (he : digestBytes e = 64) :
    (stage E e m).hash = stageDigest E e m ++ List.replicate (128 - digestBytes e) 0 := by
  rw [stage_hash, writeAt0, stageDigest_length, he, h.2]

theorem stageCalls_absorbs (es : List EngineId) (m : Machine E) (h : ZeroUpper m.hash) :
    ∀ e data, Call.absorb e data ∈ stageCalls E es m →
      data.length = 128 ∧ data.drop 64 = List.replicate 64 0 := by
  induction es generalizing m with
  | nil => intro e data hmem; simp [stageCalls] at hmem
  | cons e0 es ih =>
    intro e data hmem
    simp only [stageCalls, List.mem_cons] at hmem
    rcases hmem with hmem | hmem | hmem
    · injection hmem with _ hdata
      rw [hdata, List.take_of_length_le (by rw [h.1])]
      exact h
    · exact Call.noConfusion hmem
    · exact ih _ (stage_zeroUpper e0 m h) e data hmem

theorem stageCalls_chain (es : List EngineId) (m : Machine E) (h : ZeroUpper m.hash)
    (hes : ∀ e, e ∈ es.dropLast → digestBytes e = 64) :
    List.Chain' Follows (stageCalls E es m) := by
  induction es generalizing m with
  | nil => exact List.chain'_nil
  | cons e es ih =>
    cases es with
    | nil => simp [stageCalls, Follows]
    | cons e2 es =>
      have he : digestBytes e = 64 := hes e (by simp [List.dropLast])
      have ih' := ih (stage E e m) (stage_zeroUpper e m h)
        (fun x hx => hes x (by simp only [List.dropLast_cons₂]; exact List.mem_cons_of_mem _ hx))
      rw [stageCalls, List.chain'_cons, List.chain'_cons']
      refine ⟨trivial, ?_, ih'⟩
      intro y hy
      simp only [stageCalls, List.head?_cons, Option.mem_def, Option.some.injEq] at hy
      subst hy
      show List.take 128 (stage E e m).hash = _
      rw [List.take_of_length_le (by rw [stage_hash_length e m h.1]),
        stage_hash_of_zeroUpper e m h he]

theorem zeroUpper_replicate : ZeroUpper (List.replicate 128 0) := by
  constructor
  · simp
  · simp

theorem xevan_blake_zeroUpper (base : Xhash_context_holder E) (input state : Mem)
    (version : Int) :
    ZeroUpper (xevan_blake_first E input version (xevan_setup E base state)).hash := by
  have hlen : (freshDigest E (freshContexts E base) .blake1
      (readBytes input (if version = 4 then 112 else 80))).length = 64 :=
    (E .blake1).close_length _
  rw [xevan_blake_hash]
  constructor
  · simp [hlen]
  · rw [← hlen, List.drop_left, hlen]

theorem memset_hash8_zeroUpper (m : Machine E) (h : m.hash.length = 128) :
    ZeroUpper (memset_hash8 m).hash := by
  have h32 : (m.hash.take 32).length = 32 := by rw [List.length_take, h]; rfl
  rw [memset_hash8_hash m h]
  constructor
  · simp [h32]
  · rw [List.drop_append_eq_append_drop, List.drop_of_length_le (by omega), h32]
    simp

/-- C20: under the width contract of the engines (64 bytes for the 512-bit
engines, 32 for Haval), every absorb after the first one receives 128 bytes
whose upper half, bytes 64 .. 127, is zero; and every absorb that comes right
after a close receives exactly the digest of that close followed by zeros, 64
of them after a 512-bit engine and 96 after Haval, so that no byte of an older
digest is absorbed. -/
theorem xevan_hash_zero_upper_half (E : Engines) (base : Xhash_context_holder E)
    (input state : Mem) (version : Int) :
    (∃ first evs1 evs2,
      (xevan_hash E base input state version).log =
        initCalls ++
          Call.absorb .blake1 (readBytes input (if version = 4 then 112 else 80)) ::
          first :: (evs1 ++ evs2) ∧
      evs1.length = 32 ∧ evs2.length = 34 ∧
      (∃ digest before after, first = Call.close .blake1 digest before after) ∧
      (∀ e data, Call.absorb e data ∈ evs1 ++ evs2 →
        data.length = 128 ∧ data.drop 64 = List.replicate 64 0) ∧
      List.Chain' Follows (first :: (evs1 ++ evs2))) ∧
    (∀ e, e ≠ EngineId.haval1 → 128 - digestBytes e = 64) ∧
    128 - digestBytes .haval1 = 96 := by
  refine ⟨?_, ?_, rfl⟩
  · have hz1 := xevan_blake_zeroUpper base input state version
    have hlen3 := runStages_hash_length restOrder _ hz1.1
    have hz4 := memset_hash8_zeroUpper _ hlen3
    have hlen : (freshDigest E (freshContexts E base) .blake1
        (readBytes input (if version = 4 then 112 else 80))).length = 64 :=
      (E .blake1).close_length _
    have hlog : (xevan_hash E base input state version).log =
        (xevan_blake_first E input version (xevan_setup E base state)).log ++
          (stageCalls E restOrder (xevan_blake_first E input version (xevan_setup E base state))
            ++ stageCalls E passOrder (memset_hash8 (runStages E restOrder
              (xevan_blake_first E input version (xevan_setup E base state))))) := by
      rw [xevan_hash_eq, memcpy_state_log, runStages_log_eq, memset_hash8_log, runStages_log_eq,
        List.append_assoc]
    have hblake := xevan_blake_log base input state version
    have hhash := xevan_blake_hash base input state version
    generalize xevan_blake_first E input version (xevan_setup E base state) = m1 at *
    have hsplit : stageCalls E restOrder m1 =
        stageCalls E restOrder.dropLast m1 ++
          [Call.absorb .haval1 ((runStages E restOrder.dropLast m1).hash.take 128),
           Call.close .haval1 (stageDigest E .haval1 (runStages E restOrder.dropLast m1))
             (runStages E restOrder.dropLast m1).hash
             (writeAt0 (runStages E restOrder.dropLast m1).hash
               (stageDigest E .haval1 (runStages E restOrder.dropLast m1)))] :=
      stageCalls_append restOrder.dropLast [.haval1] m1
    have hd : (stageDigest E .haval1 (runStages E restOrder.dropLast m1)).length = 32 :=
      stageDigest_length _ _
    have hm4 : (memset_hash8 (runStages E restOrder m1)).hash =
        stageDigest E .haval1 (runStages E restOrder.dropLast m1) ++ List.replicate 96 0 := by
      have htake : (writeAt0 (runStages E restOrder.dropLast m1).hash
          (stageDigest E .haval1 (runStages E restOrder.dropLast m1))).take 32 =
          stageDigest E .haval1 (runStages E restOrder.dropLast m1) := by
        conv_lhs => rw [← hd]
        exact writeAt0_take _ _
      rw [memset_hash8_hash _ hlen3, runStages_restOrder_last, stage_hash, htake]
    refine ⟨Call.close .blake1
        (freshDigest E (freshContexts E base) .blake1
          (readBytes input (if version = 4 then 112 else 80)))
        (List.replicate 128 0)
        (freshDigest E (freshContexts E base) .blake1
          (readBytes input (if version = 4 then 112 else 80)) ++ List.replicate 64 0),
      stageCalls E restOrder m1,
      stageCalls E passOrder (memset_hash8 (runStages E restOrder m1)), ?_, ?_, ?_,
      ⟨_, _, _, rfl⟩, ?_, ?_⟩
    · rw [hlog, hblake]
      simp only [List.append_assoc, List.cons_append, List.nil_append]
    · rw [stageCalls_length]; rfl
    · rw [stageCalls_length]; rfl
    · intro e data hmem
      rcases List.mem_append.1 hmem with h | h
      · exact stageCalls_absorbs restOrder m1 hz1 e data h
      · exact stageCalls_absorbs passOrder _ hz4 e data h
    · rw [← List.cons_append, List.chain'_append]
      refine ⟨?_, ?_, ?_⟩
      · rw [List.chain'_cons']
        refine ⟨?_, stageCalls_chain restOrder m1 hz1 (by decide)⟩
        intro y hy
        simp only [restOrder, stageCalls, List.head?_cons, Option.mem_def,
          Option.some.injEq] at hy
        subst hy
        simp only [Follows]
        rw [List.take_of_length_le (by rw [hz1.1]), hhash]
        rfl
      · exact stageCalls_chain passOrder _ hz4 (by decide)
      · intro x hx y hy
        rw [hsplit] at hx
        simp only [passOrder, stageCalls, List.head?_cons, Option.mem_def,
          Option.some.injEq] at hy
        subst hy
        rw [← List.cons_append, List.getLast?_append] at hx
        simp only [List.getLast?_cons_cons, List.getLast?_singleton, Option.or,
          Option.mem_def, Option.some.injEq] at hx
        subst hx
        simp only [Follows]
        rw [List.take_of_length_le (by rw [hz4.1]), hm4]
        rfl
  · intro e he
    cases e <;> first | rfl | exact absurd rfl he

theorem xevan_hash_zero_upper_half_witness :
    EngineId.whirlpool1 ≠ EngineId.haval1 ∧ 128 - digestBytes .whirlpool1 = 64 :=
  ⟨by decide,
    (xevan_hash_zero_upper_half toyEngines toyBase toyInput toyState 0).2.1 .whirlpool1
      (by decide)⟩

theorem xevan_hash_template_witness :
    (xevan_hash toyEngines toyBase toyInput toyState 0).base_contexts =
      (xevan_setup toyEngines toyBase toyState).base_contexts ∧
    (xevan_setup toyEngines toyBase toyState).base_contexts .sha512 =
      (toyEngines .sha512).init (toyBase .sha512) :=
  ⟨(xevan_hash_template toyEngines toyBase toyInput toyState 0).2.2.2.2,
    (xevan_hash_template toyEngines toyBase toyInput toyState 0).2.2.1 .sha512⟩

/-! ## The boolean functions of the step -/

/-- The complement of a 64-bit word is its exclusive or with the all-ones word. -/
theorem not64_eq_xor_mask {x : Nat} (hx : x < 2 ^ 64) : 2 ^ 64 - 1 - x = x ^^^ (2 ^ 64 - 1) := by
  apply Nat.eq_of_testBit_eq
  intro i
  rw [show 2 ^ 64 - 1 - x = 2 ^ 64 - (x + 1) by omega, Nat.testBit_two_pow_sub_succ hx,
    Nat.testBit_xor, Nat.testBit_two_pow_sub_one]
  by_cases hi : i < 64
  · simp [hi]
  · have h64 : 2 ^ 64 ≤ 2 ^ i := Nat.pow_le_pow_right (by norm_num) (by omega)
    have hxi : x.testBit i = false := Nat.testBit_lt_two_pow (lt_of_lt_of_le hx h64)
    simp [hi, hxi]

/-- C21: on all 64-bit words `x`, `y`, `z` the optimised forms of the step
equal the textbook functions: `CH(x, y, z) = ((y xor z) and x) xor z` equals
`(x and y) xor ((not x) and z)`, the complement being taken on 64 bits, and
`MAJ(x, y, z) = (x and y) or ((x or y) and z)` equals
`(x and y) xor (x and z) xor (y and z)`. -/
theorem CH_MAJ_textbook (x y z : Nat) (hx : x < 2 ^ 64) (hy : y < 2 ^ 64) (hz : z < 2 ^ 64) :
    CH x y z = ((y ^^^ z) &&& x) ^^^ z ∧
    CH x y z = (x &&& y) ^^^ ((2 ^ 64 - 1 - x) &&& z) ∧
    CH x y z = fipsCh x y z ∧
    MAJ x y z = (x &&& y) ||| ((x ||| y) &&& z) ∧
    MAJ x y z = (x &&& y) ^^^ (x &&& z) ^^^ (y &&& z) ∧
    MAJ x y z = fipsMaj x y z ∧
    CH x y z < 2 ^ 64 ∧ MAJ x y z < 2 ^ 64 := by
  refine ⟨rfl, ?_, CH_eq_fipsCh y hx hz, rfl, MAJ_eq_fipsMaj x y z, MAJ_eq_fipsMaj x y z, ?_, ?_⟩
  · rw [CH_eq_fipsCh y hx hz, not64_eq_xor_mask hx]
    rfl
  · unfold CH
    exact Nat.xor_lt_two_pow (Nat.and_lt_two_pow _ hx) hz
  · unfold MAJ
    exact Nat.or_lt_two_pow (Nat.and_lt_two_pow _ hy) (Nat.and_lt_two_pow _ hz)

theorem CH_MAJ_textbook_witness :
    (0xF0F0F0F0F0F0F0F0 : Nat) < 2 ^ 64 ∧ (0x123456789ABCDEF0 : Nat) < 2 ^ 64 ∧
    (0xFFFFFFFF00000000 : Nat) < 2 ^ 64 ∧
    CH 0xF0F0F0F0F0F0F0F0 0x123456789ABCDEF0 0xFFFFFFFF00000000 =
      fipsCh 0xF0F0F0F0F0F0F0F0 0x123456789ABCDEF0 0xFFFFFFFF00000000 ∧
    MAJ 0xF0F0F0F0F0F0F0F0 0x123456789ABCDEF0 0xFFFFFFFF00000000 =
      fipsMaj 0xF0F0F0F0F0F0F0F0 0x123456789ABCDEF0 0xFFFFFFFF00000000 :=
  ⟨by decide, by decide, by decide,
    (CH_MAJ_textbook 0xF0F0F0F0F0F0F0F0 0x123456789ABCDEF0 0xFFFFFFFF00000000
      (by decide) (by decide) (by decide)).2.2.1,
    (CH_MAJ_textbook 0xF0F0F0F0F0F0F0F0 0x123456789ABCDEF0 0xFFFFFFFF00000000
      (by decide) (by decide) (by decide)).2.2.2.2.2.1⟩

/-- Beyond 64 bits the two forms of `Ch` part, the complement being taken on
64 bits only. -/
theorem CH_ne_fipsCh_beyond_64_bits : CH (2 ^ 64) 0 (2 ^ 64) ≠ fipsCh (2 ^ 64) 0 (2 ^ 64) := by
  decide

end Xevan
